import Mathlib

/-!
Verification of the h2wtf repository: a shallow embedding of the HTTP/2
stream-lifecycle collector (src/httpd/h2/stream.py), the worker concurrency
statistics (src/h2wtf.py) and the timestamp/line parsing layer
(src/httpd/log.py), together with theorems settling the frozen claims.

Modelling conventions:
  - Python dictionaries become association lists in insertion order
    (Python dicts preserve insertion order); in-place mutation of a value
    object becomes functional replacement at its key.
  - Regular-expression matching of log messages by the event rules is
    abstracted as the rule's match function (an EventMatch carries a
    function returning the extracted flattened identity, as the source's
    EventMatch.match returns H2StreamEvents.global_id of the regex match);
    the collector logic itself is translated literally.
  - The identity-filter regexes built by _gid_patterns_for are translated
    (character-level) for the literal digit/dash pattern texts they are
    built from.
  - Python exceptions that the collector does not catch (int() on a
    malformed identity string) are modelled by Option: a none result of
    observe stands for an uncaught exception.
  - datetime.timedelta values are modelled as Int (microseconds).
  - The log output (log.info / log.warning / log.error calls) of the
    collector is part of the modelled state, since one claim is about it.
-/

/-- A structured httpd log record (class HttpdLogEntry in src/httpd/log.py),
restricted to the fields the collector and statistics read. The timedelta
field is the elapsed time since the first record, in microseconds. -/
structure HttpdLogEntry where
  module : String
  level : String
  pid : Nat
  tid : Nat
  source : String
  message : String
  timedelta : Int
  deriving DecidableEq, Repr

/-- Nonempty all-digit character list (one regex token of digits). -/
def digits1 (cs : List Char) : Bool :=
  !cs.isEmpty && cs.all Char.isDigit

/-- Numeric value of a digit list (Python int() on a digit string). -/
def digitsToNat (cs : List Char) : Nat :=
  cs.foldl (fun acc c => acc * 10 + (c.toNat - '0'.toNat)) 0

/-- Python int() on a string: defined exactly for nonempty digit strings
(the only strings the collector ever converts), none models ValueError. -/
def parseDigits? (cs : List Char) : Option Nat :=
  if digits1 cs then some (digitsToNat cs) else none

/-- Split a character list at every '-', Python str.split of a single-char
separator: returns the (possibly empty) pieces between separators. -/
def splitDash : List Char → List (List Char)
  | [] => [[]]
  | c :: rest =>
    if c = '-' then [] :: splitDash rest
    else
      match splitDash rest with
      | [] => [[c]]
      | p :: ps => (c :: p) :: ps

/-- H2StreamEvents.split_gid: parts = gid.split('-');
int(parts[0]), int(parts[1]), int(parts[2]) if len(parts) > 2 else 0.
none models the IndexError / ValueError the Python code raises on a
malformed identity. -/
def splitGid? (gid : String) : Option (Nat × Nat × Nat) :=
  match splitDash gid.data with
  | p0 :: p1 :: rest =>
    match parseDigits? p0, parseDigits? p1 with
    | some a, some b =>
      match rest with
      | [] => some (a, b, 0)
      | p2 :: _ => (parseDigits? p2).map fun c => (a, b, c)
    | _, _ => none
  | _ => none

/-- gid.endswith('-0') for the is_conn flag. -/
def endsWithDash0 (s : String) : Bool :=
  match s.data.reverse with
  | '0' :: '-' :: _ => true
  | _ => false

/-- Per-stream record (class H2StreamEvents): canonical identity, its parsed
components, and the event map. The source stores, per event name, either a
single entry or a list of entries with the first one surfaced; we model the
slot uniformly as the nonempty ordered list of occurrences. -/
structure H2StreamEvents where
  gid : String
  is_conn : Bool
  child : Nat
  session_id : Nat
  stream_id : Nat
  events : List (String × List HttpdLogEntry)
  deriving DecidableEq, Repr

/-- H2StreamEvents.__init__: parses the identity via split_gid (which can
raise on a malformed gid, modelled by none). -/
def H2StreamEvents.init? (gid : String) : Option H2StreamEvents :=
  (splitGid? gid).map fun t =>
    { gid := gid
      is_conn := endsWithDash0 gid
      child := t.1
      session_id := t.2.1
      stream_id := t.2.2
      events := [] }

/-- First-match association-list lookup (Python dict lookup). -/
def lookupA {α : Type} : List (String × α) → String → Option α
  | [], _ => none
  | (k, v) :: rest, n => if k = n then some v else lookupA rest n

/-- Replace the value stored under a key, leaving other entries alone
(Python mutates the value object held by the dict in place). -/
def updateA {α : Type} : List (String × α) → String → α → List (String × α)
  | [], _, _ => []
  | (k, v) :: rest, n, nv =>
    if k = n then (k, nv) :: rest else (k, v) :: updateA rest n nv

/-- Append an occurrence under an event name (H2StreamEvents.add_event:
a first occurrence starts the slot, later ones are appended after it). -/
def addToEvents : List (String × List HttpdLogEntry) → String → HttpdLogEntry →
    List (String × List HttpdLogEntry)
  | [], n, e => [(n, [e])]
  | (k, es) :: rest, n, e =>
    if k = n then (k, es ++ [e]) :: rest else (k, es) :: addToEvents rest n e

/-- H2StreamEvents.add_event. -/
def H2StreamEvents.add_event (s : H2StreamEvents) (name : String)
    (e : HttpdLogEntry) : H2StreamEvents :=
  { s with events := addToEvents s.events name e }

/-- H2StreamEvents.event: the first occurrence recorded under a name. -/
def H2StreamEvents.event (s : H2StreamEvents) (name : String) :
    Option HttpdLogEntry :=
  match lookupA s.events name with
  | none => none
  | some es => es.head?

/-- One classifier rule (class EventMatch): event name, the creating and
aliasing flags, and the match function standing for regex matching plus
H2StreamEvents.global_id extraction of the flattened identity. -/
structure EventMatch where
  event : String
  matchFn : HttpdLogEntry → Option String
  creating : Bool := false
  aliasing : Bool := false

/-- Severity of a log call made by the collector. -/
inductive LogLevel where
  | info
  | warning
  | error
  deriving DecidableEq, Repr

/-- Mutable state of H2StreamEventsCollector: the stream registry
(_streams_by_gid), the alias table (_gid_by_alias), and the log output the
collector has emitted so far. -/
structure CState where
  streams_by_gid : List (String × H2StreamEvents)
  gid_by_alias : List (String × String)
  logs : List (LogLevel × String)
  deriving DecidableEq, Repr

/-- The compiled form of one identity-filter pattern, one constructor per
branch of _gid_patterns_for:
  exactPat s       compiles r'^' + s + r'$'        (s matched ^\d+-\d+-\d+$),
  pairNumPat s     compiles r'^' + s + r'-\d+$'    (s matched \d+-\d+),
  startNumNumPat s compiles r'^' + s + '\d+-\d+$'  (s matched \d+-),
  numNumTailPat s  compiles r'^\d+-\d+-' + s + r'$' (anything else). -/
inductive GidPattern where
  | exactPat (s : String)
  | pairNumPat (s : String)
  | startNumNumPat (s : String)
  | numNumTailPat (s : String)
  deriving DecidableEq, Repr

/-- Does cs start with at least one digit. -/
def startsDigits1 (cs : List Char) : Bool :=
  match cs with
  | c :: _ => c.isDigit
  | [] => false

/-- Drop the leading digit run. -/
def dropDigits (cs : List Char) : List Char :=
  cs.dropWhile Char.isDigit

/-- Test for re.match(r'^\d+-\d+-\d+$', s): exactly three nonempty digit
groups separated by '-'. -/
def tripleTest (s : String) : Bool :=
  match splitDash s.data with
  | [a, b, c] => digits1 a && digits1 b && digits1 c
  | _ => false

/-- Test for re.match(r'\d+-\d+', s): s starts with digits, '-', digits. -/
def pairStartTest (s : String) : Bool :=
  startsDigits1 s.data &&
    match dropDigits s.data with
    | '-' :: rest => startsDigits1 rest
    | _ => false

/-- Test for re.match(r'\d+-', s): s starts with digits then '-'. -/
def numDashStartTest (s : String) : Bool :=
  startsDigits1 s.data &&
    match dropDigits s.data with
    | '-' :: _ => true
    | _ => false

/-- Classify one configured filter string exactly as the if/elif chain of
H2StreamEventsCollector._gid_patterns_for does. -/
def classifyGidPattern (s : String) : GidPattern :=
  if tripleTest s then .exactPat s
  else if pairStartTest s then .pairNumPat s
  else if numDashStartTest s then .startNumNumPat s
  else .numNumTailPat s

/-- H2StreamEventsCollector._gid_patterns_for: None or an empty selection
means no filter; otherwise each string is compiled per its shape. -/
def gid_patterns_for (identifier : Option (List String)) :
    Option (List GidPattern) :=
  match identifier with
  | none => none
  | some l => if l.isEmpty then none else some (l.map classifyGidPattern)

/-- Strip an exact character prefix, returning the remainder. -/
def stripChars : List Char → List Char → Option (List Char)
  | [], cs => some cs
  | _ :: _, [] => none
  | p :: ps, c :: cs => if p = c then stripChars ps cs else none

/-- Match a trailing \d+-\d+$ after a literal start: digits, '-', digits,
end of string. -/
def numDashNumEndTest (cs : List Char) : Bool :=
  startsDigits1 cs &&
    match dropDigits cs with
    | '-' :: t => digits1 t
    | _ => false

/-- Consume \d+-\d+- at the start and return the remainder. -/
def numNumDashRest (cs : List Char) : Option (List Char) :=
  if startsDigits1 cs then
    match dropDigits cs with
    | '-' :: r1 =>
      if startsDigits1 r1 then
        match dropDigits r1 with
        | '-' :: r2 => some r2
        | _ => none
      else none
    | _ => none
  else none

/-- Matching of one compiled filter pattern against a flattened identity.
This translates the four regexes compiled by _gid_patterns_for; the
configured text s is treated literally, which coincides with regex
semantics for the digit/dash pattern texts the classification branches
recognise (and for any text free of regex metacharacters). -/
def gpMatch (p : GidPattern) (gid : String) : Bool :=
  match p with
  | .exactPat s => gid == s
  | .pairNumPat s =>
    match stripChars (s.data ++ ['-']) gid.data with
    | some rest => digits1 rest
    | none => false
  | .startNumNumPat s =>
    match stripChars s.data gid.data with
    | some rest => numDashNumEndTest rest
    | none => false
  | .numNumTailPat s =>
    match numNumDashRest gid.data with
    | some r2 => r2 == s.data
    | none => false

/-- H2StreamEventsCollector._is_interesting: with no filter (None, or an
empty pattern list, which is falsy in Python) everything is interesting;
otherwise any pattern may accept the identity. -/
def is_interesting (for_streams : Option (List GidPattern)) (gid : String) :
    Bool :=
  match for_streams with
  | none => true
  | some pats => if pats.isEmpty then true else pats.any fun p => gpMatch p gid

/-- Collector configuration: the ordered rule list (LIFETIME_MATCHER plus
optional frame matchers) and the compiled identity filter. -/
structure CollectorConfig where
  matchers : List EventMatch
  for_streams : Option (List GidPattern)

/-- The candidate search of _alias_git: all registered streams sharing the
local stream number and the child component with the raw identity (the
session component is not compared). -/
def candidatesOf (st : CState) (pid stream_id : Nat) : List H2StreamEvents :=
  (st.streams_by_gid.map Prod.snd).filter fun s =>
    s.stream_id == stream_id && s.child == pid

/-- H2StreamEventsCollector._alias_git. Returns none for the uncaught
exception split_gid raises on a malformed identity; otherwise the optional
resolved canonical identity together with the updated state (a permanent
alias entry and an info log on unique success, only a log otherwise). -/
def alias_git (st : CState) (gid : String) :
    Option (Option String × CState) :=
  (splitGid? gid).map fun t =>
    match candidatesOf st t.1 t.2.2 with
    | [c] =>
      (some c.gid,
        { st with
          gid_by_alias := st.gid_by_alias ++ [(gid, c.gid)]
          logs := st.logs ++
            [(LogLevel.info, "task " ++ gid ++ " attached to stream " ++ c.gid)] })
    | [] =>
      (none, { st with logs := st.logs ++
        [(LogLevel.info, "stream " ++ gid ++ " unknown")] })
    | cands =>
      (none, { st with logs := st.logs ++
        [(LogLevel.warning, "stream " ++ gid ++ " has " ++
          toString cands.length ++ " possible matches, ignored")] })

/-- H2StreamEventsCollector._determine_gid: a raw identity that names a
registered stream is used directly; otherwise a recorded alias wins;
otherwise an aliasing rule may reconcile it; otherwise the raw identity is
returned unchanged. -/
def determine_gid (st : CState) (m : EventMatch) (gid : String) :
    Option (String × CState) :=
  if (lookupA st.streams_by_gid gid).isSome then some (gid, st)
  else
    match lookupA st.gid_by_alias gid with
    | some c => some (c, st)
    | none =>
      if m.aliasing then
        match alias_git st gid with
        | none => none
        | some (some real_gid, st1) => some (real_gid, st1)
        | some (none, st1) => some (gid, st1)
      else some (gid, st)

/-- First rule of the ordered list whose pattern matches the record's
message, together with the extracted raw identity (the for loop of
observe). -/
def firstMatch : List EventMatch → HttpdLogEntry →
    Option (EventMatch × String)
  | [], _ => none
  | m :: ms, e =>
    match m.matchFn e with
    | some gid => some (m, gid)
    | none => firstMatch ms e

/-- H2StreamEventsCollector.observe. Returns none for an uncaught Python
exception (malformed identity reaching split_gid), otherwise the returned
relevance boolean and the successor state. -/
def observe (cfg : CollectorConfig) (st : CState) (e : HttpdLogEntry) :
    Option (Bool × CState) :=
  if e.module ≠ "http2" then some (false, st)
  else
    match firstMatch cfg.matchers e with
    | none => some (false, st)
    | some (m, gid0) =>
      match determine_gid st m gid0 with
      | none => none
      | some (gid, st1) =>
        match lookupA st1.streams_by_gid gid with
        | some s =>
          some (is_interesting cfg.for_streams gid,
            { st1 with
              streams_by_gid := updateA st1.streams_by_gid gid
                (s.add_event m.event e) })
        | none =>
          if m.creating then
            match H2StreamEvents.init? gid with
            | none => none
            | some s0 =>
              some (is_interesting cfg.for_streams gid,
                { st1 with
                  streams_by_gid := st1.streams_by_gid ++
                    [(gid, s0.add_event m.event e)] })
          else some (is_interesting cfg.for_streams gid, st1)

/-- Feed a list of records through observe in order (the collector's
single observation pass); none if any call raised. -/
def observeList (cfg : CollectorConfig) : CState → List HttpdLogEntry →
    Option CState
  | st, [] => some st
  | st, e :: es =>
    match observe cfg st e with
    | none => none
    | some (_, st') => observeList cfg st' es

/-- Sort key used by get_streams and all_streams: the timedelta of the
first created event. The Python code crashes when a stream lacks a created
event; the registry invariant proved below shows the default branch is
never taken for collector-produced streams. -/
def createdKey (s : H2StreamEvents) : Int :=
  match s.event "created" with
  | some e => e.timedelta
  | none => 0

/-- H2StreamEventsCollector.get_streams: interesting streams sorted by
creation time. -/
def get_streams (cfg : CollectorConfig) (st : CState) : List H2StreamEvents :=
  List.insertionSort (fun a b => createdKey a ≤ createdKey b)
    ((st.streams_by_gid.map Prod.snd).filter fun s =>
      is_interesting cfg.for_streams s.gid)

/-- H2StreamEventsCollector.all_streams: every registered stream sorted by
creation time, ignoring the filter. -/
def all_streams (st : CState) : List H2StreamEvents :=
  List.insertionSort (fun a b => createdKey a ≤ createdKey b)
    (st.streams_by_gid.map Prod.snd)

/-- Well-formedness of the collector state, maintained by observe:
every registry value carries its key as its gid, registry keys are
distinct, and every alias entry maps a key that is not a registry key to
the identity of a registered stream. -/
def CInv (st : CState) : Prop :=
  (∀ p ∈ st.streams_by_gid, (Prod.snd p).gid = Prod.fst p) ∧
  (st.streams_by_gid.map Prod.fst).Nodup ∧
  (∀ q ∈ st.gid_by_alias,
    lookupA st.streams_by_gid (Prod.fst q) = none ∧
    (lookupA st.streams_by_gid (Prod.snd q)).isSome)

/-- A raw identity is resolved to a canonical identity when it either
names a registered stream itself or has an alias-table entry. -/
def ResolvedTo (st : CState) (g c : String) : Prop :=
  (g = c ∧ (lookupA st.streams_by_gid g).isSome) ∨
  lookupA st.gid_by_alias g = some c

/-- A worker occupancy change (class H2WorkerChange in src/h2wtf.py):
a timestamp and a signed delta. -/
structure H2WorkerChange where
  timedelta : Int
  change : Int
  deriving DecidableEq, Repr

/-- The started / ended slots of one stream as read by
H2WorkerStatistics.add_streams (fields of H2StreamStats). -/
structure WStream where
  started : Option HttpdLogEntry
  ended : Option HttpdLogEntry
  deriving DecidableEq, Repr

/-- Worker statistics state (class H2WorkerStatistics). -/
structure H2WorkerStatistics where
  changes : List H2WorkerChange
  deriving DecidableEq, Repr

/-- The worker changes one stream appends inside the loop of add_streams:
a +1 change when a started event is present, then a -1 change when an
ended event is present. -/
def changesOf (s : WStream) : List H2WorkerChange :=
  (match s.started with
   | some e => [{ timedelta := e.timedelta, change := 1 }]
   | none => []) ++
  (match s.ended with
   | some e => [{ timedelta := e.timedelta, change := -1 }]
   | none => [])

/-- H2WorkerStatistics.add_streams: append every stream's changes, then
sort the change list by timestamp (Python sorted is a stable sort). -/
def add_streams (w : H2WorkerStatistics) (streams : List WStream) :
    H2WorkerStatistics :=
  { changes := List.insertionSort (fun a b => a.timedelta ≤ b.timedelta)
      (w.changes ++ streams.flatMap changesOf) }

/-- H2WorkerStatistics.in_use_at: the signed sum of the deltas of all
changes with timestamp at most t. -/
def in_use_at (w : H2WorkerStatistics) (t : Int) : Int :=
  ((w.changes.filter fun c => c.timedelta ≤ t).map H2WorkerChange.change).sum

/-- Does the closed interval from the started timestamp to the ended
timestamp of this stream contain t. -/
def closedAt (t : Int) (s : WStream) : Bool :=
  match s.started, s.ended with
  | some e1, some e2 => decide (e1.timedelta ≤ t ∧ t ≤ e2.timedelta)
  | _, _ => false

/-- Does the half-open interval from the started timestamp inclusive to
the ended timestamp exclusive of this stream contain t. -/
def halfOpenAt (t : Int) (s : WStream) : Bool :=
  match s.started, s.ended with
  | some e1, some e2 => decide (e1.timedelta ≤ t ∧ t < e2.timedelta)
  | _, _ => false

/-- Modelled from the claim's words, for comparison with in_use_at: the
number of streams whose closed interval from the started timestamp to the
ended timestamp contains t. -/
def closedIntervalCount (streams : List WStream) (t : Int) : Int :=
  ((streams.filter (closedAt t)).length : Int)

/-- The number of streams whose half-open interval, from the started
timestamp inclusive to the ended timestamp exclusive, contains t. -/
def halfOpenIntervalCount (streams : List WStream) (t : Int) : Int :=
  ((streams.filter (halfOpenAt t)).length : Int)

/-- The internal absolute-time representation (Python datetime), as the
HttpTimestampParser constructs it. -/
structure PyDateTime where
  year : Nat
  month : Nat
  day : Nat
  hour : Nat
  minute : Nat
  second : Nat
  microsecond : Nat
  deriving DecidableEq, Repr

/-- Gregorian leap-year rule (Python calendar). -/
def isLeapYear (y : Nat) : Bool :=
  (y % 4 == 0 && y % 100 != 0) || y % 400 == 0

/-- Days in a month of a given year. -/
def daysInMonth (y m : Nat) : Nat :=
  if m = 2 then (if isLeapYear y then 29 else 28)
  else if m = 4 ∨ m = 6 ∨ m = 9 ∨ m = 11 then 30
  else 31

/-- The datetime constructor's validation: none models the ValueError
Python raises on out-of-range components. -/
def mkPyDateTime (y mo d h mi s us : Nat) : Option PyDateTime :=
  if 1 ≤ y ∧ y ≤ 9999 ∧ 1 ≤ mo ∧ mo ≤ 12 ∧ 1 ≤ d ∧ d ≤ daysInMonth y mo ∧
      h < 24 ∧ mi < 60 ∧ s < 60 ∧ us < 1000000 then
    some { year := y, month := mo, day := d, hour := h, minute := mi,
           second := s, microsecond := us }
  else none

/-- The lower-cased abbreviated month names the parser builds once
(ABR_MONTH_NAME, via strftime of each month in the C locale). -/
def ABR_MONTH_NAME : List String :=
  ["jan", "feb", "mar", "apr", "may", "jun",
   "jul", "aug", "sep", "oct", "nov", "dec"]

/-- list.index as an option (none models the ValueError of a miss). -/
def idxOf : List String → String → Option Nat
  | [], _ => none
  | x :: xs, s => if x = s then some 0 else (idxOf xs s).map Nat.succ

/-- ASCII lower-casing of one character (str.lower on the month names). -/
def asciiLower (c : Char) : Char :=
  if 'A' ≤ c ∧ c ≤ 'Z' then Char.ofNat (c.toNat + 32) else c

/-- ASCII lower-casing of a string. -/
def strLower (s : String) : String :=
  String.mk (s.data.map asciiLower)

/-- A word character of the legacy timestamp regex (ASCII \w). -/
def isWordChar (c : Char) : Bool :=
  c.isAlphanum || c == '_'

/-- The capture groups of the legacy timestamp pattern of
HttpTimestampParser: day name, month name, and the numeric fields. -/
structure TsGroups where
  dname : String
  mname : String
  mday : Nat
  hour : Nat
  minute : Nat
  second : Nat
  micros : Nat
  year : Nat
  deriving DecidableEq, Repr

/-- re.match of the legacy pattern
  (?P<dname>\w+) (?P<mname>\w+) (?P<mday>\d\d)
  (?P<hour>\d\d):(?P<minute>\d\d):(?P<second>\d\d).(?P<micros>\d+)
  (?P<year>\d+)
against the start of the string (trailing text is permitted, the single
dot matches any character other than a newline). The greedy runs of this
pattern are all delimiter-bounded, so matching is deterministic. -/
def tsGroups? (s : String) : Option TsGroups :=
  match s.data.span isWordChar with
  | (w1, ' ' :: r1) =>
    if w1.isEmpty then none
    else
      match r1.span isWordChar with
      | (w2, ' ' :: r2) =>
        if w2.isEmpty then none
        else
          match r2 with
          | d1 :: d2 :: ' ' :: h1 :: h2 :: ':' :: m1 :: m2 :: ':' ::
              s1 :: s2 :: dot :: r3 =>
            if d1.isDigit && d2.isDigit && h1.isDigit && h2.isDigit &&
                m1.isDigit && m2.isDigit && s1.isDigit && s2.isDigit &&
                dot != '\n' then
              match r3.span Char.isDigit with
              | (mic, ' ' :: r4) =>
                if mic.isEmpty then none
                else
                  let yr := r4.takeWhile Char.isDigit
                  if yr.isEmpty then none
                  else some
                    { dname := String.mk w1
                      mname := String.mk w2
                      mday := digitsToNat [d1, d2]
                      hour := digitsToNat [h1, h2]
                      minute := digitsToNat [m1, m2]
                      second := digitsToNat [s1, s2]
                      micros := digitsToNat mic
                      year := digitsToNat yr }
              | _ => none
            else none
          | _ => none
      | _ => none
  | _ => none

/-- The legacy branch of HttpTimestampParser.parse after the ISO attempt:
match the legacy pattern, look the month name up in ABR_MONTH_NAME, and
build the datetime; none models any of the ValueErrors this can raise. -/
def legacyTs? (s : String) : Option PyDateTime :=
  match tsGroups? s with
  | none => none
  | some g =>
    match idxOf ABR_MONTH_NAME (strLower g.mname) with
    | none => none
    | some i =>
      mkPyDateTime g.year (i + 1) g.mday g.hour g.minute g.second g.micros

/-- HttpTimestampParser.parse. The stdlib datetime.fromisoformat is an
external collaborator (Python standard library, not part of this
repository) and is abstracted as the iso oracle; a ValueError of the
oracle (none) falls through to the legacy pattern, whose failures raise
(Except.error). -/
def ts_parse (iso : String → Option PyDateTime) (s : String) :
    Except String PyDateTime :=
  match iso s with
  | some dt => Except.ok dt
  | none =>
    match tsGroups? s with
    | none => Except.error ("unrecognized timestamp: " ++ s)
    | some g =>
      match idxOf ABR_MONTH_NAME (strLower g.mname) with
      | none => Except.error ("month name not recognized: " ++ g.mname)
      | some i =>
        match mkPyDateTime g.year (i + 1) g.mday g.hour g.minute g.second
            g.micros with
        | some dt => Except.ok dt
        | none => Except.error "invalid datetime components"

/-- Leap years strictly before year y (for exact datetime subtraction). -/
def leapsBefore (y : Nat) : Nat :=
  (y - 1) / 4 - (y - 1) / 100 + (y - 1) / 400

/-- Days in the months of year y strictly before month m. -/
def daysBeforeMonth (y : Nat) : Nat → Nat
  | 0 => 0
  | n + 1 => daysBeforeMonth y n + daysInMonth y (n + 1)

/-- Absolute microsecond rank of a datetime (exact difference of two
datetimes equals the difference of their ranks, matching Python datetime
subtraction). -/
def dtMicros (dt : PyDateTime) : Int :=
  ((((dt.year - 1) * 365 + leapsBefore dt.year +
      daysBeforeMonth dt.year (dt.month - 1) + (dt.day - 1)) * 86400 +
    dt.hour * 3600 + dt.minute * 60 + dt.second) * 1000000 +
    dt.microsecond : Nat)

/-- The capture groups of the line pattern handed to HttpdLogParser (the
pattern is a constructor parameter in the source; a group that did not
participate is None). -/
structure LineProps where
  timestamp : Option String
  module : Option String
  level : Option String
  pid : Option Nat
  tid : Option Nat
  source : Option String
  client : Option String
  message : Option String
  deriving DecidableEq, Repr

/-- Parser state: the timestamp of the first parsed record, which defines
elapsed-time zero (HttpdLogParser.started). -/
structure HttpdLogParserState where
  started : Option PyDateTime
  deriving DecidableEq, Repr

/-- A parsed entry as assembled by parse_line: the captured groups, the
converted absolute timestamp, and the elapsed time since the first record
in microseconds. -/
structure ParsedEntry where
  props : LineProps
  timestamp : PyDateTime
  timedelta : Int
  deriving DecidableEq, Repr

/-- HttpdLogParser.parse_line together with _convert_timestamp. A line the
pattern rejects is skipped (ok none, after a warning log); a missing
timestamp group or an unparsable timestamp raises (Except.error), which
parse_line does not catch. -/
def parse_line (iso : String → Option PyDateTime)
    (linePat : String → Option LineProps)
    (ps : HttpdLogParserState) (line : String) :
    Except String (Option ParsedEntry × HttpdLogParserState) :=
  match linePat line with
  | none => Except.ok (none, ps)
  | some props =>
    match props.timestamp with
    | none => Except.error "unrecognized timestamp: None"
    | some ts =>
      match ts_parse iso ts with
      | Except.error msg => Except.error msg
      | Except.ok dt =>
        match ps.started with
        | some t0 =>
          Except.ok
            (some { props := props
                    timestamp := dt
                    timedelta := dtMicros dt - dtMicros t0 }, ps)
        | none =>
          Except.ok
            (some { props := props
                    timestamp := dt
                    timedelta := 0 }, { started := some dt })

/-- Success test for an Except result. -/
def exceptOk {ε α : Type} : Except ε α → Bool
  | Except.ok _ => true
  | Except.error _ => false

instance (st : CState) : Decidable (CInv st) := by
  unfold CInv
  infer_instance

instance (st : CState) (g c : String) : Decidable (ResolvedTo st g c) := by
  unfold ResolvedTo
  infer_instance

/-- Streams whose started and ended timestamps are consistently ordered
(vacuous when either slot is empty). -/
def wellOrderedW (s : WStream) : Bool :=
  match s.started, s.ended with
  | some e1, some e2 => e1.timedelta ≤ e2.timedelta
  | _, _ => true

theorem in_use_at_eq_sum_all (w : H2WorkerStatistics) (ss : List WStream)
    (t : Int) :
    in_use_at (add_streams w ss) t =
      (((w.changes ++ ss.flatMap changesOf).filter
        fun c => c.timedelta ≤ t).map H2WorkerChange.change).sum := by
  unfold in_use_at add_streams
  exact (((List.perm_insertionSort _ _).filter _).map _).sum_eq

theorem filter_pair_sum (p : H2WorkerChange → Bool) (a b : H2WorkerChange) :
    ((List.filter p [a, b]).map H2WorkerChange.change).sum =
      (if p a then a.change else 0) + (if p b then b.change else 0) := by
  by_cases ha : p a <;> by_cases hb : p b <;> simp [ha, hb]

theorem sum_changes_halfopen (ss : List WStream) (t : Int)
    (hboth : ∀ s ∈ ss, s.started.isSome ∧ s.ended.isSome)
    (hord : ∀ s ∈ ss, wellOrderedW s = true) :
    (((ss.flatMap changesOf).filter
      fun c => c.timedelta ≤ t).map H2WorkerChange.change).sum =
      halfOpenIntervalCount ss t := by
  induction ss with
  | nil => rfl
  | cons s rest ih =>
    have hb := hboth s (List.mem_cons_self s rest)
    obtain ⟨e1, h1⟩ := Option.isSome_iff_exists.mp hb.1
    obtain ⟨e2, h2⟩ := Option.isSome_iff_exists.mp hb.2
    have hw := hord s (List.mem_cons_self s rest)
    have hle : e1.timedelta ≤ e2.timedelta := by
      simpa [wellOrderedW, h1, h2] using hw
    have ihh := ih (fun x hx => hboth x (List.mem_cons_of_mem s hx))
      (fun x hx => hord x (List.mem_cons_of_mem s hx))
    have hcof : changesOf s =
        [{ timedelta := e1.timedelta, change := 1 },
         { timedelta := e2.timedelta, change := -1 }] := by
      simp [changesOf, h1, h2]
    have hpred : halfOpenAt t s =
        decide (e1.timedelta ≤ t ∧ t < e2.timedelta) := by
      simp [halfOpenAt, h1, h2]
    have hcount : halfOpenIntervalCount (s :: rest) t =
        (if e1.timedelta ≤ t ∧ t < e2.timedelta then 1 else 0) +
          halfOpenIntervalCount rest t := by
      unfold halfOpenIntervalCount
      rw [List.filter_cons, hpred]
      by_cases hc : e1.timedelta ≤ t ∧ t < e2.timedelta
      · rw [if_pos (by simpa using hc), if_pos hc, List.length_cons]
        push_cast
        omega
      · rw [if_neg (by simpa using hc), if_neg hc]
        omega
    rw [List.flatMap_cons, List.filter_append, List.map_append,
      List.sum_append, ihh, hcof, hcount, filter_pair_sum]
    simp only [decide_eq_true_eq]
    by_cases hc1 : e1.timedelta ≤ t <;> by_cases hc2 : e2.timedelta ≤ t
    · rw [if_pos hc1, if_pos hc2, if_neg (by omega)]
      omega
    · rw [if_pos hc1, if_neg hc2, if_pos (by omega)]
      omega
    · omega
    · rw [if_neg hc1, if_neg hc2, if_neg (by omega)]
      omega

/-- C3 (amended). in_use_at on the statistics built by add_streams is the
signed sum of all worker-change deltas with timestamp at most t, and for
streams that each carry both a started and an ended event (consistently
ordered) it equals the number of half-open intervals from started
inclusive to ended exclusive containing t, at boundaries and interior
points alike.
(The original claim's closed intervals fail at the ended endpoint, see the
counterexample.) -/
theorem in_use_at_counts_halfopen (ss : List WStream) (t : Int)
    (hboth : ∀ s ∈ ss, s.started.isSome ∧ s.ended.isSome)
    (hord : ∀ s ∈ ss, wellOrderedW s = true) :
    (∀ w : H2WorkerStatistics, in_use_at (add_streams w ss) t =
      (((w.changes ++ ss.flatMap changesOf).filter
        fun c => c.timedelta ≤ t).map H2WorkerChange.change).sum) ∧
    in_use_at (add_streams { changes := [] } ss) t =
      halfOpenIntervalCount ss t := by
  constructor
  · intro w
    exact in_use_at_eq_sum_all w ss t
  · rw [in_use_at_eq_sum_all]
    simpa using sum_changes_halfopen ss t hboth hord

/-- A concrete started entry at elapsed time 0. -/
def entStart0 : HttpdLogEntry :=
  { module := "http2", level := "trace1", pid := 1, tid := 10,
    source := "h2_c2", message := "process connection", timedelta := 0 }

/-- A concrete ended entry at elapsed time 10. -/
def entEnd10 : HttpdLogEntry :=
  { module := "http2", level := "trace1", pid := 1, tid := 10,
    source := "h2_mplx", message := "request done", timedelta := 10 }

/-- A stream occupying the interval from 0 to 10. -/
def wstream0to10 : WStream := { started := some entStart0, ended := some entEnd10 }

/-- C3 counterexample. At the ended timestamp itself the closed interval
still contains t, but in_use_at already counts the -1 delta (its filter
keeps deltas with timestamp less than or equal to t), so the claimed
equality with the closed-interval count fails at the right boundary. -/
theorem in_use_at_closed_boundary_cex :
    in_use_at (add_streams { changes := [] } [wstream0to10]) 10 = 0 ∧
    closedIntervalCount [wstream0to10] 10 = 1 := by
  decide

/-- C3 witness. -/
theorem in_use_at_counts_halfopen_witness :
    in_use_at (add_streams { changes := [] } [wstream0to10]) 5 =
      halfOpenIntervalCount [wstream0to10] 5 :=
  (in_use_at_counts_halfopen [wstream0to10] 5 (by decide) (by decide)).2

/-- C4 (amended). The change list built by add_streams is a permutation of
the previous changes together with each stream's emitted changes, and per
stream: both slots present emit the +1 start change then the -1 end
change, only started emits the +1 change, only ended emits the -1 change
(the original claim wrongly said a stream lacking a started event emits
nothing), and no slot emits nothing. -/
theorem worker_change_emission (w : H2WorkerStatistics) (ss : List WStream) :
    List.Perm (add_streams w ss).changes (w.changes ++ ss.flatMap changesOf) ∧
    ∀ s : WStream,
      (∀ e1 e2, s.started = some e1 → s.ended = some e2 →
        changesOf s = [{ timedelta := e1.timedelta, change := 1 },
                       { timedelta := e2.timedelta, change := -1 }]) ∧
      (∀ e1, s.started = some e1 → s.ended = none →
        changesOf s = [{ timedelta := e1.timedelta, change := 1 }]) ∧
      (∀ e2, s.started = none → s.ended = some e2 →
        changesOf s = [{ timedelta := e2.timedelta, change := -1 }]) ∧
      (s.started = none → s.ended = none → changesOf s = []) := by
  constructor
  · exact List.perm_insertionSort _ _
  · intro s
    refine ⟨?_, ?_, ?_, ?_⟩
    · intro e1 e2 h1 h2
      simp [changesOf, h1, h2]
    · intro e1 h1 h2
      simp [changesOf, h1, h2]
    · intro e2 h1 h2
      simp [changesOf, h1, h2]
    · intro h1 h2
      simp [changesOf, h1, h2]

/-- C4 counterexample. A stream lacking a started event but carrying an
ended event does contribute a worker change: the -1 delta at the ended
timestamp, both in changesOf and in the statistics add_streams builds,
contradicting the claim that such a stream contributes no event. -/
theorem worker_change_ended_only_cex :
    changesOf { started := none, ended := some entEnd10 } =
      [{ timedelta := 10, change := -1 }] ∧
    (add_streams { changes := [] }
      [{ started := none, ended := some entEnd10 }]).changes =
      [{ timedelta := 10, change := -1 }] := by
  decide

/-- C4 witness. -/
theorem worker_change_emission_witness :
    changesOf wstream0to10 =
      [{ timedelta := 0, change := 1 }, { timedelta := 10, change := -1 }] :=
  ((worker_change_emission { changes := [] } []).2 wstream0to10).1
    entStart0 entEnd10 rfl rfl

theorem ts_parse_error_chain (iso : String → Option PyDateTime) (s : String)
    (hiso : iso s = none) (hleg : legacyTs? s = none) :
    ∃ msg, ts_parse iso s = Except.error msg := by
  unfold legacyTs? at hleg
  cases hg : tsGroups? s with
  | none =>
    exact ⟨"unrecognized timestamp: " ++ s, by simp [ts_parse, hiso, hg]⟩
  | some g =>
    rw [hg] at hleg
    simp at hleg
    cases hidx : idxOf ABR_MONTH_NAME (strLower g.mname) with
    | none =>
      exact ⟨"month name not recognized: " ++ g.mname,
        by simp [ts_parse, hiso, hg, hidx]⟩
    | some i =>
      rw [hidx] at hleg
      simp at hleg
      exact ⟨"invalid datetime components",
        by simp [ts_parse, hiso, hg, hidx, hleg]⟩

/-- C9. HttpTimestampParser.parse succeeds exactly when the string is in
one of the two accepted encodings: the ISO form (recognized by the
stdlib oracle) or the legacy day-name month-name form, both yielding the
single internal datetime representation; on a string in neither form it
raises, and parse_line propagates that error (fatal) while a line the
line pattern rejects is merely skipped. -/
theorem timestamp_two_forms (iso : String → Option PyDateTime) (s : String) :
    (exceptOk (ts_parse iso s) = true ↔
      (iso s).isSome = true ∨ (legacyTs? s).isSome = true) ∧
    (∀ dt, iso s = some dt → ts_parse iso s = Except.ok dt) ∧
    (∀ dt, iso s = none → legacyTs? s = some dt →
      ts_parse iso s = Except.ok dt) ∧
    (∀ linePat ps line, linePat line = none →
      parse_line iso linePat ps line = Except.ok (none, ps)) ∧
    (∀ (linePat : String → Option LineProps) ps line props,
      linePat line = some props → props.timestamp = some s →
      iso s = none → legacyTs? s = none →
      ∃ msg, parse_line iso linePat ps line = Except.error msg) := by
  refine ⟨?_, ?_, ?_, ?_, ?_⟩
  · cases hiso : iso s with
    | some dt => simp [ts_parse, hiso, exceptOk]
    | none =>
      cases hg : tsGroups? s with
      | none => simp [ts_parse, legacyTs?, hiso, hg, exceptOk]
      | some g =>
        cases hidx : idxOf ABR_MONTH_NAME (strLower g.mname) with
        | none => simp [ts_parse, legacyTs?, hiso, hg, hidx, exceptOk]
        | some i =>
          cases hmk : mkPyDateTime g.year (i + 1) g.mday g.hour g.minute
              g.second g.micros with
          | none => simp [ts_parse, legacyTs?, hiso, hg, hidx, hmk, exceptOk]
          | some dt => simp [ts_parse, legacyTs?, hiso, hg, hidx, hmk, exceptOk]
  · intro dt h
    simp [ts_parse, h]
  · intro dt hiso hleg
    unfold legacyTs? at hleg
    cases hg : tsGroups? s with
    | none =>
      rw [hg] at hleg
      simp at hleg
    | some g =>
      rw [hg] at hleg
      simp at hleg
      cases hidx : idxOf ABR_MONTH_NAME (strLower g.mname) with
      | none =>
        rw [hidx] at hleg
        simp at hleg
      | some i =>
        rw [hidx] at hleg
        simp at hleg
        simp [ts_parse, hiso, hg, hidx, hleg]
  · intro linePat ps line h
    unfold parse_line
    rw [h]
  · intro linePat ps line props hlp hts hiso hleg
    obtain ⟨msg, hmsg⟩ := ts_parse_error_chain iso s hiso hleg
    refine ⟨msg, ?_⟩
    simp [parse_line, hlp, hts, hmsg]

/-- A concrete line pattern for the C9 witness: recognizes the single
line "L" and captures an unparsable timestamp. -/
def witnessLinePat (l : String) : Option LineProps :=
  if l = "L" then
    some { timestamp := some "garbage", module := some "http2",
           level := some "trace1", pid := some 1, tid := some 10,
           source := none, client := none, message := some "hello" }
  else none

/-- C9 witness. -/
theorem timestamp_two_forms_witness :
    ∃ msg, parse_line (fun _ => none) witnessLinePat { started := none } "L" =
      Except.error msg :=
  (timestamp_two_forms (fun _ => none) "garbage").2.2.2.2
    witnessLinePat { started := none } "L" _ rfl rfl rfl (by decide)

theorem lookupA_none_iff {α : Type} (l : List (String × α)) (k : String) :
    lookupA l k = none ↔ k ∉ l.map Prod.fst := by
  induction l with
  | nil => simp [lookupA]
  | cons p rest ih =>
    obtain ⟨k', v⟩ := p
    by_cases h : k' = k
    · simp [lookupA, h]
    · simp [lookupA, h, ih, Ne.symm h]

theorem lookupA_isSome_iff {α : Type} (l : List (String × α)) (k : String) :
    (lookupA l k).isSome = true ↔ k ∈ l.map Prod.fst := by
  induction l with
  | nil => simp [lookupA]
  | cons p rest ih =>
    obtain ⟨k', v⟩ := p
    by_cases h : k' = k
    · simp [lookupA, h]
    · simp [lookupA, h, ih, Ne.symm h]

theorem lookupA_mem {α : Type} {l : List (String × α)} {k : String} {v : α}
    (h : lookupA l k = some v) : (k, v) ∈ l := by
  induction l with
  | nil => simp [lookupA] at h
  | cons p rest ih =>
    obtain ⟨k', v'⟩ := p
    by_cases hk : k' = k
    · subst hk
      simp [lookupA] at h
      simp [h]
    · simp [lookupA, hk] at h
      exact List.mem_cons_of_mem _ (ih h)

theorem lookupA_append_some {α : Type} {l1 : List (String × α)}
    (l2 : List (String × α)) {k : String} {v : α}
    (h : lookupA l1 k = some v) : lookupA (l1 ++ l2) k = some v := by
  induction l1 with
  | nil => simp [lookupA] at h
  | cons p rest ih =>
    obtain ⟨k', v'⟩ := p
    by_cases hk : k' = k
    · simp_all [lookupA]
    · simp_all [lookupA, hk]

theorem lookupA_append_none {α : Type} {l1 : List (String × α)}
    (l2 : List (String × α)) {k : String}
    (h : lookupA l1 k = none) : lookupA (l1 ++ l2) k = lookupA l2 k := by
  induction l1 with
  | nil => simp [lookupA]
  | cons p rest ih =>
    obtain ⟨k', v'⟩ := p
    by_cases hk : k' = k
    · simp [lookupA, hk] at h
    · simp [lookupA, hk] at h ⊢
      exact ih h

theorem lookupA_of_mem_nodup {α : Type} {l : List (String × α)} {k : String}
    {v : α} (hm : (k, v) ∈ l) (hn : (l.map Prod.fst).Nodup) :
    lookupA l k = some v := by
  induction l with
  | nil => simp at hm
  | cons p rest ih =>
    obtain ⟨k', v'⟩ := p
    simp only [List.map_cons, List.nodup_cons] at hn
    rcases List.mem_cons.mp hm with h | h
    · rw [Prod.mk.injEq] at h
      obtain ⟨h1, h2⟩ := h
      subst h1
      subst h2
      simp [lookupA]
    · by_cases hk : k' = k
      · exfalso
        subst hk
        exact hn.1 (List.mem_map.mpr ⟨(k', v), h, rfl⟩)
      · simp only [lookupA, if_neg hk]
        exact ih h hn.2

theorem updateA_map_fst {α : Type} (l : List (String × α)) (k : String)
    (v : α) : (updateA l k v).map Prod.fst = l.map Prod.fst := by
  induction l with
  | nil => rfl
  | cons p rest ih =>
    obtain ⟨k', v'⟩ := p
    by_cases hk : k' = k
    · simp [updateA, hk]
    · simp [updateA, hk, ih]

theorem lookupA_updateA_eq {α : Type} {l : List (String × α)} {k : String}
    {w : α} (v : α) (h : lookupA l k = some w) :
    lookupA (updateA l k v) k = some v := by
  induction l with
  | nil => simp [lookupA] at h
  | cons p rest ih =>
    obtain ⟨k', v'⟩ := p
    by_cases hk : k' = k
    · simp [lookupA, updateA, hk]
    · simp [lookupA, updateA, hk] at h ⊢
      exact ih h

theorem lookupA_updateA_ne {α : Type} (l : List (String × α)) {k k' : String}
    (v : α) (h : k' ≠ k) : lookupA (updateA l k v) k' = lookupA l k' := by
  induction l with
  | nil => rfl
  | cons p rest ih =>
    obtain ⟨kk, vv⟩ := p
    by_cases hk : kk = k
    · subst hk
      have hkk' : ¬ kk = k' := fun hh => h hh.symm
      simp [updateA, lookupA, hkk']
    · by_cases hk' : kk = k'
      · simp [updateA, lookupA, hk, hk', h]
      · simp [updateA, lookupA, hk, hk', ih]

theorem lookupA_updateA_isSome {α : Type} (l : List (String × α))
    (k k' : String) (v : α) :
    (lookupA (updateA l k v) k').isSome = (lookupA l k').isSome := by
  by_cases h : k' = k
  · subst h
    cases hl : lookupA l k' with
    | none =>
      have : lookupA (updateA l k' v) k' = none := by
        rw [lookupA_none_iff, updateA_map_fst]
        exact (lookupA_none_iff l k').mp hl
      simp [this, hl]
    | some w => simp [lookupA_updateA_eq v hl, hl]
  · simp [lookupA_updateA_ne l v h]

theorem mem_updateA {α : Type} {l : List (String × α)} {k : String} {v : α}
    {p : String × α} (h : p ∈ updateA l k v) : p = (k, v) ∨ p ∈ l := by
  induction l with
  | nil => simp [updateA] at h
  | cons q rest ih =>
    obtain ⟨kk, vv⟩ := q
    by_cases hk : kk = k
    · subst hk
      simp only [updateA, if_pos rfl] at h
      rcases List.mem_cons.mp h with h | h
      · exact Or.inl h
      · exact Or.inr (List.mem_cons_of_mem _ h)
    · simp only [updateA, if_neg hk] at h
      rcases List.mem_cons.mp h with h | h
      · exact Or.inr (h ▸ List.mem_cons_self _ _)
      · rcases ih h with h | h
        · exact Or.inl h
        · exact Or.inr (List.mem_cons_of_mem _ h)

theorem firstMatch_mem {ms : List EventMatch} {e : HttpdLogEntry}
    {m : EventMatch} {g : String} (h : firstMatch ms e = some (m, g)) :
    m ∈ ms ∧ m.matchFn e = some g := by
  induction ms with
  | nil => simp [firstMatch] at h
  | cons m0 rest ih =>
    unfold firstMatch at h
    cases hm : m0.matchFn e with
    | some g0 =>
      rw [hm] at h
      simp only [Option.some.injEq, Prod.mk.injEq] at h
      obtain ⟨h1, h2⟩ := h
      subst h1
      subst h2
      exact ⟨List.mem_cons_self _ _, hm⟩
    | none =>
      rw [hm] at h
      obtain ⟨h1, h2⟩ := ih h
      exact ⟨List.mem_cons_of_mem _ h1, h2⟩

theorem addToEvents_lookup_same (evs : List (String × List HttpdLogEntry))
    (n : String) (e : HttpdLogEntry) :
    lookupA (addToEvents evs n e) n =
      some (match lookupA evs n with
            | some old => old ++ [e]
            | none => [e]) := by
  induction evs with
  | nil => simp [addToEvents, lookupA]
  | cons p rest ih =>
    obtain ⟨k, es⟩ := p
    by_cases hk : k = n
    · simp [addToEvents, lookupA, hk]
    · simp [addToEvents, lookupA, hk, ih]

theorem addToEvents_lookup_ne (evs : List (String × List HttpdLogEntry))
    {n n' : String} (e : HttpdLogEntry) (h : n' ≠ n) :
    lookupA (addToEvents evs n e) n' = lookupA evs n' := by
  induction evs with
  | nil =>
    simp only [addToEvents, lookupA]
    rw [if_neg (fun hh : n = n' => h hh.symm)]
  | cons p rest ih =>
    obtain ⟨k, es⟩ := p
    by_cases hk : k = n
    · subst hk
      have hkn : ¬ k = n' := fun hh => h hh.symm
      simp only [addToEvents, if_pos rfl, lookupA]
      rw [if_neg hkn, if_neg hkn]
    · simp only [addToEvents, if_neg hk, lookupA]
      by_cases hk' : k = n'
      · rw [if_pos hk', if_pos hk']
      · rw [if_neg hk', if_neg hk']
        exact ih

theorem event_add_event_same_isSome (s : H2StreamEvents) (n : String)
    (e : HttpdLogEntry) : ((s.add_event n e).event n).isSome = true := by
  simp only [H2StreamEvents.add_event, H2StreamEvents.event]
  rw [show (addToEvents s.events n e) = addToEvents s.events n e from rfl,
    addToEvents_lookup_same]
  cases h : lookupA s.events n with
  | none => simp
  | some old => cases old <;> simp

theorem event_add_event_first {s : H2StreamEvents} {n : String}
    {e0 : HttpdLogEntry} (e : HttpdLogEntry) (h : s.event n = some e0) :
    (s.add_event n e).event n = some e0 := by
  simp only [H2StreamEvents.event, H2StreamEvents.add_event] at h ⊢
  rw [addToEvents_lookup_same]
  cases hl : lookupA s.events n with
  | none =>
    rw [hl] at h
    simp at h
  | some old =>
    rw [hl] at h
    simp only at h
    cases old with
    | nil => simp at h
    | cons a t =>
      simp only [List.head?_cons, Option.some.injEq] at h
      subst h
      simp

theorem event_add_event_ne (s : H2StreamEvents) {n n' : String}
    (e : HttpdLogEntry) (h : n' ≠ n) :
    (s.add_event n e).event n' = s.event n' := by
  simp only [H2StreamEvents.event, H2StreamEvents.add_event]
  rw [addToEvents_lookup_ne _ e h]

theorem event_add_event_isSome_mono (s : H2StreamEvents) (n n' : String)
    (e : HttpdLogEntry) (h : (s.event n').isSome = true) :
    ((s.add_event n e).event n').isSome = true := by
  by_cases hn : n' = n
  · subst hn
    exact event_add_event_same_isSome s n' e
  · rw [event_add_event_ne s e hn]
    exact h

theorem init?_spec {g : String} {s : H2StreamEvents}
    (h : H2StreamEvents.init? g = some s) : s.gid = g ∧ s.events = [] := by
  unfold H2StreamEvents.init? at h
  cases hs : splitGid? g with
  | none =>
    rw [hs] at h
    simp at h
  | some t =>
    rw [hs] at h
    simp only [Option.map_some', Option.some.injEq] at h
    rw [← h]
    exact ⟨rfl, rfl⟩

theorem mem_values_lookup {st : CState} (hinv : CInv st) {c : H2StreamEvents}
    (hc : c ∈ st.streams_by_gid.map Prod.snd) :
    lookupA st.streams_by_gid c.gid = some c := by
  obtain ⟨p, hp, hpe⟩ := List.mem_map.mp hc
  obtain ⟨k, v⟩ := p
  have h1 := hinv.1 (k, v) hp
  simp only at hpe h1
  subst hpe
  subst h1
  exact lookupA_of_mem_nodup hp hinv.2.1

theorem determine_gid_spec {st : CState} {m : EventMatch} {g r : String}
    {st1 : CState} (hinv : CInv st)
    (h : determine_gid st m g = some (r, st1)) :
    CInv st1 ∧ st1.streams_by_gid = st.streams_by_gid ∧
    (∀ k v, lookupA st.gid_by_alias k = some v →
      lookupA st1.gid_by_alias k = some v) ∧
    ((lookupA st.streams_by_gid r).isSome = true ∨
      (r = g ∧ lookupA st.streams_by_gid g = none ∧
        lookupA st1.gid_by_alias g = none)) := by
  unfold determine_gid at h
  by_cases hs : (lookupA st.streams_by_gid g).isSome = true
  · rw [if_pos hs] at h
    simp only [Option.some.injEq, Prod.mk.injEq] at h
    obtain ⟨h1, h2⟩ := h
    subst h1
    subst h2
    exact ⟨hinv, rfl, fun k v hv => hv, Or.inl hs⟩
  · rw [if_neg hs] at h
    have hsn : lookupA st.streams_by_gid g = none :=
      Option.not_isSome_iff_eq_none.mp (by simpa using hs)
    cases ha : lookupA st.gid_by_alias g with
    | some c =>
      rw [ha] at h
      simp only [Option.some.injEq, Prod.mk.injEq] at h
      obtain ⟨h1, h2⟩ := h
      subst h1
      subst h2
      exact ⟨hinv, rfl, fun k v hv => hv,
        Or.inl (hinv.2.2 (g, c) (lookupA_mem ha)).2⟩
    | none =>
      rw [ha] at h
      by_cases hal : m.aliasing = true
      · rw [if_pos hal] at h
        cases hag : alias_git st g with
        | none =>
          rw [hag] at h
          simp at h
        | some pr =>
          obtain ⟨ro, st1'⟩ := pr
          rw [hag] at h
          unfold alias_git at hag
          cases hsp : splitGid? g with
          | none =>
            rw [hsp] at hag
            simp at hag
          | some t =>
            rw [hsp] at hag
            simp only [Option.map_some', Option.some.injEq] at hag
            cases hcand : candidatesOf st t.1 t.2.2 with
            | nil =>
              rw [hcand] at hag
              simp only [Prod.mk.injEq] at hag
              obtain ⟨hro, hst'⟩ := hag
              subst hro
              simp only [Option.some.injEq, Prod.mk.injEq] at h
              obtain ⟨h1, h2⟩ := h
              subst h1
              subst h2
              rw [← hst']
              exact ⟨⟨hinv.1, hinv.2.1, hinv.2.2⟩, rfl, fun k v hv => hv,
                Or.inr ⟨rfl, hsn, ha⟩⟩
            | cons c cs =>
              cases cs with
              | nil =>
                rw [hcand] at hag
                simp only [Prod.mk.injEq] at hag
                obtain ⟨hro, hst'⟩ := hag
                subst hro
                simp only [Option.some.injEq, Prod.mk.injEq] at h
                obtain ⟨h1, h2⟩ := h
                subst h1
                subst h2
                rw [← hst']
                have hcmem : c ∈ st.streams_by_gid.map Prod.snd := by
                  have : c ∈ candidatesOf st t.1 t.2.2 := by
                    rw [hcand]
                    exact List.mem_cons_self c []
                  exact (List.mem_filter.mp this).1
                have hlc : lookupA st.streams_by_gid c.gid = some c :=
                  mem_values_lookup hinv hcmem
                refine ⟨⟨hinv.1, hinv.2.1, ?_⟩, rfl, ?_, Or.inl (by simp [hlc])⟩
                · intro q hq
                  rcases List.mem_append.mp hq with hq | hq
                  · exact hinv.2.2 q hq
                  · simp only [List.mem_singleton] at hq
                    subst hq
                    exact ⟨hsn, by simp [hlc]⟩
                · intro k v hv
                  exact lookupA_append_some _ hv
              | cons c2 cs2 =>
                rw [hcand] at hag
                simp only [Prod.mk.injEq] at hag
                obtain ⟨hro, hst'⟩ := hag
                subst hro
                simp only [Option.some.injEq, Prod.mk.injEq] at h
                obtain ⟨h1, h2⟩ := h
                subst h1
                subst h2
                rw [← hst']
                exact ⟨⟨hinv.1, hinv.2.1, hinv.2.2⟩, rfl, fun k v hv => hv,
                  Or.inr ⟨rfl, hsn, ha⟩⟩
      · rw [if_neg hal] at h
        simp only [Option.some.injEq, Prod.mk.injEq] at h
        obtain ⟨h1, h2⟩ := h
        subst h1
        subst h2
        exact ⟨hinv, rfl, fun k v hv => hv, Or.inr ⟨rfl, hsn, ha⟩⟩

theorem lookupA_updateA_none {α : Type} (l : List (String × α))
    (k k' : String) (v : α) (h : lookupA l k' = none) :
    lookupA (updateA l k v) k' = none := by
  have hs := lookupA_updateA_isSome l k k' v
  rw [h] at hs
  simp only [Option.isSome_none] at hs
  exact Option.not_isSome_iff_eq_none.mp (by simp [hs])

theorem lookupA_updateA_isSome_of {α : Type} (l : List (String × α))
    (k k' : String) (v : α) (h : (lookupA l k').isSome = true) :
    (lookupA (updateA l k v) k').isSome = true := by
  rw [lookupA_updateA_isSome]
  exact h

theorem lookupA_append_isSome {α : Type} {l1 : List (String × α)}
    (l2 : List (String × α)) {k : String}
    (h : (lookupA l1 k).isSome = true) :
    (lookupA (l1 ++ l2) k).isSome = true := by
  obtain ⟨v, hv⟩ := Option.isSome_iff_exists.mp h
  rw [lookupA_append_some l2 hv]
  rfl

theorem observe_spec_inv {cfg : CollectorConfig} {st : CState}
    {e : HttpdLogEntry} {b : Bool} {st' : CState} (hinv : CInv st)
    (h : observe cfg st e = some (b, st')) :
    CInv st' ∧
    (∀ k, (lookupA st.streams_by_gid k).isSome = true →
      (lookupA st'.streams_by_gid k).isSome = true) ∧
    (∀ k v, lookupA st.gid_by_alias k = some v →
      lookupA st'.gid_by_alias k = some v) := by
  unfold observe at h
  by_cases hm : e.module ≠ "http2"
  · rw [if_pos hm] at h
    simp only [Option.some.injEq, Prod.mk.injEq] at h
    obtain ⟨h1, h2⟩ := h
    subst h2
    exact ⟨hinv, fun k hk => hk, fun k v hv => hv⟩
  · rw [if_neg hm] at h
    cases hfm : firstMatch cfg.matchers e with
    | none =>
      rw [hfm] at h
      simp only [Option.some.injEq, Prod.mk.injEq] at h
      obtain ⟨h1, h2⟩ := h
      subst h2
      exact ⟨hinv, fun k hk => hk, fun k v hv => hv⟩
    | some pr =>
      obtain ⟨m, g0⟩ := pr
      rw [hfm] at h
      simp only [] at h
      cases hd : determine_gid st m g0 with
      | none =>
        rw [hd] at h
        simp at h
      | some pr2 =>
        obtain ⟨g, st1⟩ := pr2
        rw [hd] at h
        simp only [] at h
        obtain ⟨hinv1, hstr1, hali1, hdisj⟩ := determine_gid_spec hinv hd
        cases hl : lookupA st1.streams_by_gid g with
        | some s =>
          rw [hl] at h
          simp only [Option.some.injEq, Prod.mk.injEq] at h
          obtain ⟨h1, h2⟩ := h
          subst h2
          refine ⟨⟨?_, ?_, ?_⟩, ?_, ?_⟩
          · intro p hp
            rcases mem_updateA hp with hp | hp
            · subst hp
              simpa using hinv1.1 _ (lookupA_mem hl)
            · exact hinv1.1 p hp
          · simpa only [updateA_map_fst] using hinv1.2.1
          · intro q hq
            have h3 := hinv1.2.2 q hq
            exact ⟨lookupA_updateA_none _ _ _ _ h3.1,
              lookupA_updateA_isSome_of _ _ _ _ h3.2⟩
          · intro k hk
            simp only
            exact lookupA_updateA_isSome_of _ _ _ _ (hstr1 ▸ hk)
          · intro k v hv
            exact hali1 k v hv
        | none =>
          rw [hl] at h
          have hgal : lookupA st1.gid_by_alias g = none := by
            rcases hdisj with hdisj | hdisj
            · exact absurd (hstr1 ▸ hdisj)
                (by rw [hl]; simp)
            · obtain ⟨heq, hn1, hn2⟩ := hdisj
              rw [heq]
              exact hn2
          by_cases hc : m.creating = true
          · rw [if_pos hc] at h
            cases hini : H2StreamEvents.init? g with
            | none =>
              rw [hini] at h
              simp at h
            | some s0 =>
              rw [hini] at h
              simp only [Option.some.injEq, Prod.mk.injEq] at h
              obtain ⟨h1, h2⟩ := h
              subst h2
              have hs0 := init?_spec hini
              have hgid : (s0.add_event m.event e).gid = g := hs0.1
              have hgnotin : g ∉ st1.streams_by_gid.map Prod.fst :=
                (lookupA_none_iff _ _).mp hl
              refine ⟨⟨?_, ?_, ?_⟩, ?_, ?_⟩
              · intro p hp
                rcases List.mem_append.mp hp with hp | hp
                · exact hinv1.1 p hp
                · simp only [List.mem_singleton] at hp
                  subst hp
                  exact hgid
              · simp only [List.map_append]
                rw [List.nodup_append]
                refine ⟨hinv1.2.1, List.nodup_singleton _, ?_⟩
                intro a ha
                simp only [List.map_cons, List.map_nil, List.mem_singleton]
                intro hag
                subst hag
                exact hgnotin ha
              · intro q hq
                have h3 := hinv1.2.2 q hq
                have hq1g : q.1 ≠ g := by
                  intro hqg
                  have : q.1 ∈ st1.gid_by_alias.map Prod.fst :=
                    List.mem_map.mpr ⟨q, hq, rfl⟩
                  rw [hqg] at this
                  exact (lookupA_none_iff _ _).mp hgal this
                constructor
                · rw [lookupA_append_none _ h3.1]
                  simp only [lookupA]
                  rw [if_neg (fun hh : g = q.1 => hq1g hh.symm)]
                · exact lookupA_append_isSome _ h3.2
              · intro k hk
                exact lookupA_append_isSome _ (hstr1 ▸ hk)
              · intro k v hv
                exact hali1 k v hv
          · rw [if_neg hc] at h
            simp only [Option.some.injEq, Prod.mk.injEq] at h
            obtain ⟨h1, h2⟩ := h
            subst h2
            exact ⟨hinv1, fun k hk => hstr1 ▸ hk, hali1⟩

theorem observeList_spec_inv {cfg : CollectorConfig} {st st' : CState}
    {es : List HttpdLogEntry} (hinv : CInv st)
    (h : observeList cfg st es = some st') :
    CInv st' ∧
    (∀ k, (lookupA st.streams_by_gid k).isSome = true →
      (lookupA st'.streams_by_gid k).isSome = true) ∧
    (∀ k v, lookupA st.gid_by_alias k = some v →
      lookupA st'.gid_by_alias k = some v) := by
  induction es generalizing st with
  | nil =>
    unfold observeList at h
    simp only [Option.some.injEq] at h
    subst h
    exact ⟨hinv, fun k hk => hk, fun k v hv => hv⟩
  | cons e rest ih =>
    unfold observeList at h
    cases ho : observe cfg st e with
    | none =>
      rw [ho] at h
      simp at h
    | some pr =>
      obtain ⟨b, st1⟩ := pr
      rw [ho] at h
      simp only [] at h
      obtain ⟨hinv1, hsm1, ham1⟩ := observe_spec_inv hinv ho
      obtain ⟨hinv2, hsm2, ham2⟩ := ih hinv1 h
      exact ⟨hinv2, fun k hk => hsm2 k (hsm1 k hk),
        fun k v hv => ham2 k v (ham1 k v hv)⟩

theorem determine_gid_of_resolved {st : CState} {g c : String} (hinv : CInv st)
    (hres : ResolvedTo st g c) (m : EventMatch) :
    determine_gid st m g = some (c, st) := by
  unfold determine_gid
  rcases hres with ⟨heq, hsome⟩ | hal
  · subst heq
    rw [if_pos hsome]
  · have hnone : lookupA st.streams_by_gid g = none :=
      (hinv.2.2 (g, c) (lookupA_mem hal)).1
    rw [if_neg (by simp [hnone]), hal]

theorem resolved_mono {st st' : CState}
    (hsm : ∀ k, (lookupA st.streams_by_gid k).isSome = true →
      (lookupA st'.streams_by_gid k).isSome = true)
    (ham : ∀ k v, lookupA st.gid_by_alias k = some v →
      lookupA st'.gid_by_alias k = some v)
    {g c : String} (hres : ResolvedTo st g c) : ResolvedTo st' g c := by
  rcases hres with ⟨heq, hsome⟩ | hal
  · exact Or.inl ⟨heq, hsm g hsome⟩
  · exact Or.inr (ham g c hal)

/-- C2. Once a raw identity is resolved to a canonical identity (it names a
registered stream, or it has an alias-table entry), it stays so after any
further observed records: alias entries are never modified or removed, and
_determine_gid deterministically returns the same canonical identity for
that raw identity under every rule. -/
theorem alias_resolution_stable (cfg : CollectorConfig) (st st' : CState)
    (es : List HttpdLogEntry) (g c : String)
    (hinv : CInv st) (hres : ResolvedTo st g c)
    (hrun : observeList cfg st es = some st') :
    ResolvedTo st' g c ∧
    (∀ k v, lookupA st.gid_by_alias k = some v →
      lookupA st'.gid_by_alias k = some v) ∧
    (∀ m, determine_gid st' m g = some (c, st')) := by
  obtain ⟨hinv', hsm, ham⟩ := observeList_spec_inv hinv hrun
  have hres' := resolved_mono hsm ham hres
  exact ⟨hres', ham, fun m => determine_gid_of_resolved hinv' hres' m⟩

/-- Concrete classifier rule for witnesses: the creating created rule. -/
def ruleCreated : EventMatch :=
  { event := "created"
    matchFn := fun e =>
      if e.message = "created 1-2-7" then some "1-2-7" else none
    creating := true }

/-- Concrete classifier rule for witnesses: a plain started rule. -/
def ruleStarted : EventMatch :=
  { event := "started"
    matchFn := fun e =>
      if e.message = "started 1-9-7" then some "1-9-7" else none }

/-- Concrete classifier rule for witnesses: the aliasing response rule. -/
def ruleResponse : EventMatch :=
  { event := "response"
    matchFn := fun e =>
      if e.message = "response 1-9-7" then some "1-9-7" else none
    aliasing := true }

/-- Witness collector configuration, no identity filter. -/
def wCfg : CollectorConfig :=
  { matchers := [ruleCreated, ruleStarted, ruleResponse], for_streams := none }

/-- Witness record creating stream 1-2-7. -/
def entC : HttpdLogEntry :=
  { module := "http2", level := "trace1", pid := 1, tid := 10,
    source := "h2", message := "created 1-2-7", timedelta := 0 }

/-- Witness record: aliasing response bearing the drifted identity 1-9-7. -/
def entR : HttpdLogEntry :=
  { module := "http2", level := "trace1", pid := 1, tid := 11,
    source := "h2", message := "response 1-9-7", timedelta := 5 }

/-- Witness record: started event bearing the drifted identity 1-9-7. -/
def entS : HttpdLogEntry :=
  { module := "http2", level := "trace1", pid := 1, tid := 11,
    source := "h2", message := "started 1-9-7", timedelta := 6 }

/-- The empty collector state. -/
def emptyCState : CState :=
  { streams_by_gid := [], gid_by_alias := [], logs := [] }

/-- State after observing the creation and the aliased response. -/
def stCR : CState :=
  (observeList wCfg emptyCState [entC, entR]).getD emptyCState

/-- State after additionally observing the aliased started record. -/
def stCRS : CState :=
  (observeList wCfg stCR [entS]).getD emptyCState

/-- C2 witness. -/
theorem alias_resolution_stable_witness : ResolvedTo stCRS "1-9-7" "1-2-7" :=
  (alias_resolution_stable wCfg stCR stCRS [entS] "1-9-7" "1-2-7"
    (by decide) (by decide) (by decide)).1

theorem determine_gid_streams {st : CState} {m : EventMatch} {g r : String}
    {st1 : CState} (h : determine_gid st m g = some (r, st1)) :
    st1.streams_by_gid = st.streams_by_gid := by
  unfold determine_gid at h
  by_cases hs : (lookupA st.streams_by_gid g).isSome = true
  · rw [if_pos hs] at h
    simp only [Option.some.injEq, Prod.mk.injEq] at h
    rw [← h.2]
  · rw [if_neg hs] at h
    cases ha : lookupA st.gid_by_alias g with
    | some c =>
      rw [ha] at h
      simp only [Option.some.injEq, Prod.mk.injEq] at h
      rw [← h.2]
    | none =>
      rw [ha] at h
      by_cases hal : m.aliasing = true
      · rw [if_pos hal] at h
        cases hag : alias_git st g with
        | none =>
          rw [hag] at h
          simp at h
        | some pr =>
          obtain ⟨ro, st1'⟩ := pr
          rw [hag] at h
          unfold alias_git at hag
          cases hsp : splitGid? g with
          | none =>
            rw [hsp] at hag
            simp at hag
          | some t =>
            rw [hsp] at hag
            simp only [Option.map_some', Option.some.injEq] at hag
            have hstr : st1'.streams_by_gid = st.streams_by_gid := by
              cases hcand : candidatesOf st t.1 t.2.2 with
              | nil =>
                rw [hcand] at hag
                simp only [Prod.mk.injEq] at hag
                rw [← hag.2]
              | cons c cs =>
                cases cs with
                | nil =>
                  rw [hcand] at hag
                  simp only [Prod.mk.injEq] at hag
                  rw [← hag.2]
                | cons c2 cs2 =>
                  rw [hcand] at hag
                  simp only [Prod.mk.injEq] at hag
                  rw [← hag.2]
            cases ro with
            | some real =>
              simp only [Option.some.injEq, Prod.mk.injEq] at h
              rw [← h.2]
              exact hstr
            | none =>
              simp only [Option.some.injEq, Prod.mk.injEq] at h
              rw [← h.2]
              exact hstr
      · rw [if_neg hal] at h
        simp only [Option.some.injEq, Prod.mk.injEq] at h
        rw [← h.2]

/-- Every registered stream carries a recorded created event. -/
def CreatedInv (st : CState) : Prop :=
  ∀ p ∈ st.streams_by_gid, ((Prod.snd p).event "created").isSome = true

instance (st : CState) : Decidable (CreatedInv st) := by
  unfold CreatedInv
  infer_instance

theorem observe_CreatedInv {cfg : CollectorConfig} {st : CState}
    {e : HttpdLogEntry} {b : Bool} {st' : CState}
    (hcfg : ∀ m ∈ cfg.matchers, m.creating = true → m.event = "created")
    (hci : CreatedInv st) (h : observe cfg st e = some (b, st')) :
    CreatedInv st' := by
  unfold observe at h
  by_cases hm : e.module ≠ "http2"
  · rw [if_pos hm] at h
    simp only [Option.some.injEq, Prod.mk.injEq] at h
    rw [← h.2]
    exact hci
  · rw [if_neg hm] at h
    cases hfm : firstMatch cfg.matchers e with
    | none =>
      rw [hfm] at h
      simp only [Option.some.injEq, Prod.mk.injEq] at h
      rw [← h.2]
      exact hci
    | some pr =>
      obtain ⟨m, g0⟩ := pr
      rw [hfm] at h
      simp only [] at h
      cases hd : determine_gid st m g0 with
      | none =>
        rw [hd] at h
        simp at h
      | some pr2 =>
        obtain ⟨g, st1⟩ := pr2
        rw [hd] at h
        simp only [] at h
        have hstr1 := determine_gid_streams hd
        have hci1 : CreatedInv st1 := by
          unfold CreatedInv
          rw [hstr1]
          exact hci
        cases hl : lookupA st1.streams_by_gid g with
        | some s =>
          rw [hl] at h
          simp only [Option.some.injEq, Prod.mk.injEq] at h
          rw [← h.2]
          intro p hp
          rcases mem_updateA hp with hp | hp
          · rw [hp]
            exact event_add_event_isSome_mono s m.event "created" e
              (hci1 (g, s) (lookupA_mem hl))
          · exact hci1 p hp
        | none =>
          rw [hl] at h
          by_cases hc : m.creating = true
          · rw [if_pos hc] at h
            cases hini : H2StreamEvents.init? g with
            | none =>
              rw [hini] at h
              simp at h
            | some s0 =>
              rw [hini] at h
              simp only [Option.some.injEq, Prod.mk.injEq] at h
              rw [← h.2]
              intro p hp
              rcases List.mem_append.mp hp with hp | hp
              · exact hci1 p hp
              · simp only [List.mem_singleton] at hp
                rw [hp]
                have hev : m.event = "created" :=
                  hcfg m (firstMatch_mem hfm).1 hc
                simp only
                rw [hev]
                exact event_add_event_same_isSome s0 "created" e
          · rw [if_neg hc] at h
            simp only [Option.some.injEq, Prod.mk.injEq] at h
            rw [← h.2]
            exact hci1

theorem observeList_CreatedInv {cfg : CollectorConfig} {st st' : CState}
    {es : List HttpdLogEntry}
    (hcfg : ∀ m ∈ cfg.matchers, m.creating = true → m.event = "created")
    (hci : CreatedInv st) (h : observeList cfg st es = some st') :
    CreatedInv st' := by
  induction es generalizing st with
  | nil =>
    unfold observeList at h
    simp only [Option.some.injEq] at h
    rw [← h]
    exact hci
  | cons e rest ih =>
    unfold observeList at h
    cases ho : observe cfg st e with
    | none =>
      rw [ho] at h
      simp at h
    | some pr =>
      obtain ⟨b, st1⟩ := pr
      rw [ho] at h
      simp only [] at h
      exact ih (observe_CreatedInv hcfg hci ho) h

theorem mem_all_streams {st : CState} {s : H2StreamEvents}
    (h : s ∈ all_streams st) : ∃ p ∈ st.streams_by_gid, Prod.snd p = s := by
  unfold all_streams at h
  exact List.mem_map.mp ((List.perm_insertionSort _ _).mem_iff.mp h)

theorem mem_get_streams {cfg : CollectorConfig} {st : CState}
    {s : H2StreamEvents} (h : s ∈ get_streams cfg st) :
    ∃ p ∈ st.streams_by_gid, Prod.snd p = s := by
  unfold get_streams at h
  have h2 := (List.perm_insertionSort _ _).mem_iff.mp h
  exact List.mem_map.mp (List.mem_filter.mp h2).1

/-- C6. Under the collector's rule set (the only creating rule records the
created event), every stream registered at any point of a run carries a
created event: a stream enters the registry only through a creating rule
match, which records its created occurrence in the same observe call.
Hence every member of all_streams and of get_streams has a created
event. -/
theorem streams_always_created (cfg : CollectorConfig) (st st' : CState)
    (es : List HttpdLogEntry)
    (hcfg : ∀ m ∈ cfg.matchers, m.creating = true → m.event = "created")
    (hci : CreatedInv st) (hrun : observeList cfg st es = some st') :
    CreatedInv st' ∧
    (∀ s ∈ all_streams st', (s.event "created").isSome = true) ∧
    (∀ s ∈ get_streams cfg st', (s.event "created").isSome = true) := by
  have hci' := observeList_CreatedInv hcfg hci hrun
  refine ⟨hci', ?_, ?_⟩
  · intro s hs
    obtain ⟨p, hp, hpe⟩ := mem_all_streams hs
    rw [← hpe]
    exact hci' p hp
  · intro s hs
    obtain ⟨p, hp, hpe⟩ := mem_get_streams hs
    rw [← hpe]
    exact hci' p hp

/-- C6 witness. -/
theorem streams_always_created_witness : CreatedInv stCRS :=
  (streams_always_created wCfg stCR stCRS [entS]
    (by decide) (by decide) (by decide)).1

theorem determine_gid_unknown {st : CState} {m : EventMatch} {g0 g : String}
    {st1 : CState} (hinv : CInv st)
    (hd : determine_gid st m g0 = some (g, st1))
    (hl : lookupA st1.streams_by_gid g = none) :
    g = g0 ∧ st1.gid_by_alias = st.gid_by_alias ∧
    st1.streams_by_gid = st.streams_by_gid := by
  have hstr := determine_gid_streams hd
  unfold determine_gid at hd
  by_cases hs : (lookupA st.streams_by_gid g0).isSome = true
  · rw [if_pos hs] at hd
    simp only [Option.some.injEq, Prod.mk.injEq] at hd
    obtain ⟨h1, h2⟩ := hd
    subst h1
    subst h2
    rw [hl] at hs
    simp at hs
  · rw [if_neg hs] at hd
    cases ha : lookupA st.gid_by_alias g0 with
    | some c =>
      rw [ha] at hd
      simp only [Option.some.injEq, Prod.mk.injEq] at hd
      obtain ⟨h1, h2⟩ := hd
      subst h1
      subst h2
      have := (hinv.2.2 (g0, c) (lookupA_mem ha)).2
      rw [hl] at this
      simp at this
    | none =>
      rw [ha] at hd
      by_cases hal : m.aliasing = true
      · rw [if_pos hal] at hd
        cases hag : alias_git st g0 with
        | none =>
          rw [hag] at hd
          simp at hd
        | some pr =>
          obtain ⟨ro, st1'⟩ := pr
          rw [hag] at hd
          unfold alias_git at hag
          cases hsp : splitGid? g0 with
          | none =>
            rw [hsp] at hag
            simp at hag
          | some t =>
            rw [hsp] at hag
            simp only [Option.map_some', Option.some.injEq] at hag
            cases hcand : candidatesOf st t.1 t.2.2 with
            | nil =>
              rw [hcand] at hag
              simp only [Prod.mk.injEq] at hag
              obtain ⟨hro, hst'⟩ := hag
              subst hro
              simp only [Option.some.injEq, Prod.mk.injEq] at hd
              obtain ⟨h1, h2⟩ := hd
              subst h1
              subst h2
              rw [← hst']
              exact ⟨rfl, rfl, rfl⟩
            | cons c cs =>
              cases cs with
              | nil =>
                rw [hcand] at hag
                simp only [Prod.mk.injEq] at hag
                obtain ⟨hro, hst'⟩ := hag
                subst hro
                simp only [Option.some.injEq, Prod.mk.injEq] at hd
                obtain ⟨h1, h2⟩ := hd
                subst h1
                subst h2
                exfalso
                have hcmem : c ∈ st.streams_by_gid.map Prod.snd := by
                  have : c ∈ candidatesOf st t.1 t.2.2 := by
                    rw [hcand]
                    exact List.mem_cons_self c []
                  exact (List.mem_filter.mp this).1
                have hlc := mem_values_lookup hinv hcmem
                rw [hstr] at hl
                rw [hl] at hlc
                simp at hlc
              | cons c2 cs2 =>
                rw [hcand] at hag
                simp only [Prod.mk.injEq] at hag
                obtain ⟨hro, hst'⟩ := hag
                subst hro
                simp only [Option.some.injEq, Prod.mk.injEq] at hd
                obtain ⟨h1, h2⟩ := hd
                subst h1
                subst h2
                rw [← hst']
                exact ⟨rfl, rfl, rfl⟩
      · rw [if_neg hal] at hd
        simp only [Option.some.injEq, Prod.mk.injEq] at hd
        obtain ⟨h1, h2⟩ := hd
        subst h1
        subst h2
        exact ⟨rfl, rfl, rfl⟩

/-- C10. When observe records no event — the record's module is not the
protocol subsystem, no rule matches, or the resolved identity names no
registered stream and the rule is not creating — the stream registry and
the alias table are exactly unchanged by the call. -/
theorem observe_discard_atomic (cfg : CollectorConfig) (st : CState)
    (e : HttpdLogEntry) (b : Bool) (st' : CState) (hinv : CInv st)
    (hrun : observe cfg st e = some (b, st'))
    (hdisc : e.module ≠ "http2" ∨ firstMatch cfg.matchers e = none ∨
      (∃ m g0 g st1, firstMatch cfg.matchers e = some (m, g0) ∧
        determine_gid st m g0 = some (g, st1) ∧
        lookupA st1.streams_by_gid g = none ∧ m.creating = false)) :
    st'.streams_by_gid = st.streams_by_gid ∧
    st'.gid_by_alias = st.gid_by_alias := by
  unfold observe at hrun
  rcases hdisc with hdisc | hdisc | hdisc
  · rw [if_pos hdisc] at hrun
    simp only [Option.some.injEq, Prod.mk.injEq] at hrun
    obtain ⟨h1, h2⟩ := hrun
    subst h2
    exact ⟨rfl, rfl⟩
  · by_cases hm : e.module ≠ "http2"
    · rw [if_pos hm] at hrun
      simp only [Option.some.injEq, Prod.mk.injEq] at hrun
      obtain ⟨h1, h2⟩ := hrun
      subst h2
      exact ⟨rfl, rfl⟩
    · rw [if_neg hm, hdisc] at hrun
      simp only [Option.some.injEq, Prod.mk.injEq] at hrun
      obtain ⟨h1, h2⟩ := hrun
      subst h2
      exact ⟨rfl, rfl⟩
  · obtain ⟨m, g0, g, st1, hfm, hd, hl, hc⟩ := hdisc
    by_cases hm : e.module ≠ "http2"
    · rw [if_pos hm] at hrun
      simp only [Option.some.injEq, Prod.mk.injEq] at hrun
      obtain ⟨h1, h2⟩ := hrun
      subst h2
      exact ⟨rfl, rfl⟩
    · rw [if_neg hm, hfm] at hrun
      simp only [] at hrun
      rw [hd] at hrun
      simp only [] at hrun
      rw [hl] at hrun
      rw [if_neg (by simp [hc])] at hrun
      simp only [Option.some.injEq, Prod.mk.injEq] at hrun
      obtain ⟨h1, h2⟩ := hrun
      subst h2
      obtain ⟨hg, hal, hstr⟩ := determine_gid_unknown hinv hd hl
      exact ⟨hstr, hal⟩

/-- State after observing the unknown-identity started record on the empty
collector (a discarded record). -/
def stDiscard : CState :=
  ((observe wCfg emptyCState entS).getD (false, emptyCState)).2

/-- C10 witness. -/
theorem observe_discard_atomic_witness :
    stDiscard.streams_by_gid = emptyCState.streams_by_gid ∧
    stDiscard.gid_by_alias = emptyCState.gid_by_alias :=
  observe_discard_atomic wCfg emptyCState entS true stDiscard (by decide) rfl
    (Or.inr (Or.inr ⟨ruleStarted, "1-9-7", "1-9-7", emptyCState,
      rfl, rfl, rfl, rfl⟩))

/-- C8 counterexample. A record matched by a non-creating rule whose
identity names no registered stream is discarded — no stream receives the
event and the state is unchanged — yet observe returns True (the empty
filter accepts every identity), contradicting the claim that observe
returns True exactly for accepted-and-recorded records. -/
theorem observe_relevance_cex :
    observe wCfg emptyCState entS = some (true, emptyCState) ∧
    emptyCState.streams_by_gid = [] :=
  ⟨rfl, rfl⟩

/-- C8 (amended). observe returns True exactly when the record's module is
the protocol subsystem, some rule matches it, and the resolved identity
passes the configured identity filter — including matched records whose
event is discarded without being recorded; it returns False for records
of other modules, records matching no rule, and matched records whose
resolved identity fails the filter. -/
theorem observe_return_semantics (cfg : CollectorConfig) (st : CState)
    (e : HttpdLogEntry) (b : Bool) (st' : CState)
    (hrun : observe cfg st e = some (b, st')) :
    b = true ↔ (e.module = "http2" ∧
      ∃ m g0 g st1, firstMatch cfg.matchers e = some (m, g0) ∧
        determine_gid st m g0 = some (g, st1) ∧
        is_interesting cfg.for_streams g = true) := by
  unfold observe at hrun
  by_cases hm : e.module ≠ "http2"
  · rw [if_pos hm] at hrun
    simp only [Option.some.injEq, Prod.mk.injEq] at hrun
    obtain ⟨h1, h2⟩ := hrun
    constructor
    · intro hb
      rw [← h1] at hb
      simp at hb
    · rintro ⟨hmod, -⟩
      exact absurd hmod hm
  · rw [if_neg hm] at hrun
    have hmod : e.module = "http2" := not_not.mp hm
    cases hfm : firstMatch cfg.matchers e with
    | none =>
      rw [hfm] at hrun
      simp only [Option.some.injEq, Prod.mk.injEq] at hrun
      obtain ⟨h1, h2⟩ := hrun
      constructor
      · intro hb
        rw [← h1] at hb
        simp at hb
      · rintro ⟨-, m, g0, g, st1, hfm', -, -⟩
        simp at hfm'
    | some pr =>
      obtain ⟨m, g0⟩ := pr
      rw [hfm] at hrun
      simp only [] at hrun
      cases hd : determine_gid st m g0 with
      | none =>
        rw [hd] at hrun
        simp at hrun
      | some pr2 =>
        obtain ⟨g, st1⟩ := pr2
        rw [hd] at hrun
        simp only [] at hrun
        have hb : b = is_interesting cfg.for_streams g := by
          cases hl : lookupA st1.streams_by_gid g with
          | some s =>
            rw [hl] at hrun
            simp only [Option.some.injEq, Prod.mk.injEq] at hrun
            exact hrun.1.symm
          | none =>
            rw [hl] at hrun
            by_cases hc : m.creating = true
            · rw [if_pos hc] at hrun
              cases hini : H2StreamEvents.init? g with
              | none =>
                rw [hini] at hrun
                simp at hrun
              | some s0 =>
                rw [hini] at hrun
                simp only [Option.some.injEq, Prod.mk.injEq] at hrun
                exact hrun.1.symm
            · rw [if_neg hc] at hrun
              simp only [Option.some.injEq, Prod.mk.injEq] at hrun
              exact hrun.1.symm
        subst hb
        constructor
        · intro hb
          exact ⟨hmod, m, g0, g, st1, rfl, hd, hb⟩
        · rintro ⟨-, m', g0', g', st1', hfm', hd', hint⟩
          simp only [Option.some.injEq, Prod.mk.injEq] at hfm'
          obtain ⟨hme, hge⟩ := hfm'
          subst hme
          subst hge
          rw [hd] at hd'
          simp only [Option.some.injEq, Prod.mk.injEq] at hd'
          obtain ⟨hge2, hs2⟩ := hd'
          subst hge2
          exact hint

/-- State after the creating record on the empty collector. -/
def stCreate1 : CState :=
  ((observe wCfg emptyCState entC).getD (false, emptyCState)).2

/-- C8 witness. -/
theorem observe_return_semantics_witness :
    entC.module = "http2" ∧
    ∃ m g0 g st1, firstMatch wCfg.matchers entC = some (m, g0) ∧
      determine_gid emptyCState m g0 = some (g, st1) ∧
      is_interesting wCfg.for_streams g = true :=
  (observe_return_semantics wCfg emptyCState entC true stCreate1 rfl).mp rfl

/-- C5 counterexample. Observing the exact same creating record twice:
the duplicate resolves to the already-registered identity, only one
stream entity exists and the alias table is untouched — but no error (or
any other) log entry is emitted, and the duplicate occurrence is not
dropped: it is retained as a second occurrence behind the surfaced first
one. This contradicts the claim that the duplicate is logged as an error
and ignored. -/
theorem duplicate_creation_no_error_cex :
    (observeList wCfg emptyCState [entC, entC]).map (fun st => st.logs) =
      some [] ∧
    (observeList wCfg emptyCState [entC, entC]).map
      (fun st => st.streams_by_gid.map Prod.fst) = some ["1-2-7"] ∧
    (observeList wCfg emptyCState [entC, entC]).map
      (fun st => (lookupA st.streams_by_gid "1-2-7").map
        (fun s => (lookupA s.events "created").map List.length)) =
      some (some (some 2)) := by
  decide

/-- C5 (amended). When a creating-flagged event resolves to a canonical
identity that already has a registered stream, observing it creates no
second stream entity, leaves the alias table and the log output
unchanged, and appends the duplicate behind the existing occurrences, so
event('created') still returns the first creation record — even when the
exact same record is observed twice. (No error is logged by this code
path, and the duplicate is retained as auxiliary history rather than
dropped.) -/
theorem duplicate_creation_ignored (cfg : CollectorConfig) (st : CState)
    (e : HttpdLogEntry) (m : EventMatch) (g0 g : String)
    (s : H2StreamEvents) (e0 : HttpdLogEntry)
    (hmod : e.module = "http2")
    (hfm : firstMatch cfg.matchers e = some (m, g0))
    (hev : m.event = "created")
    (hd : determine_gid st m g0 = some (g, st))
    (hl : lookupA st.streams_by_gid g = some s)
    (hfirst : s.event "created" = some e0) :
    observe cfg st e = some (is_interesting cfg.for_streams g,
      { st with streams_by_gid :=
          updateA st.streams_by_gid g (s.add_event "created" e) }) ∧
    (updateA st.streams_by_gid g (s.add_event "created" e)).map Prod.fst =
      st.streams_by_gid.map Prod.fst ∧
    (s.add_event "created" e).event "created" = some e0 := by
  refine ⟨?_, updateA_map_fst _ _ _, event_add_event_first e hfirst⟩
  unfold observe
  rw [if_neg (by simp [hmod]), hfm]
  simp only []
  rw [hd]
  simp only []
  rw [hl]
  simp only []
  rw [hev]

/-- State after one creating record, and its registered stream. -/
def stC : CState :=
  (observeList wCfg emptyCState [entC]).getD emptyCState

/-- The stream registered under 1-2-7 after the creating record. -/
def sC : H2StreamEvents :=
  (lookupA stC.streams_by_gid "1-2-7").getD
    { gid := "", is_conn := false, child := 0, session_id := 0,
      stream_id := 0, events := [] }

/-- C5 witness. -/
theorem duplicate_creation_ignored_witness :
    (sC.add_event "created" entC).event "created" = some entC :=
  (duplicate_creation_ignored wCfg stC entC ruleCreated "1-2-7" "1-2-7"
    sC entC rfl rfl rfl rfl rfl rfl).2.2

/-- C1. For a record matched by an aliasing-flagged (non-creating) rule
whose raw identity names no registered stream and has no alias entry, the
resolver searches all registered streams for candidates agreeing on the
local stream number and the child component (the session component is
ignored — this is candidatesOf, the search _alias_git performs). With
exactly one candidate, a permanent alias entry raw-to-candidate is
recorded and the event is attached to that candidate; with zero or
several candidates the event is discarded: no stream receives it and no
alias entry is created (only a log line is emitted). -/
theorem aliasing_reconciliation (cfg : CollectorConfig) (st : CState)
    (e : HttpdLogEntry) (m : EventMatch) (gid : String)
    (pid sess sid : Nat) (hinv : CInv st)
    (hmod : e.module = "http2")
    (hfm : firstMatch cfg.matchers e = some (m, gid))
    (hal : m.aliasing = true) (hcr : m.creating = false)
    (hns : lookupA st.streams_by_gid gid = none)
    (hna : lookupA st.gid_by_alias gid = none)
    (hsp : splitGid? gid = some (pid, sess, sid)) :
    (∀ c, candidatesOf st pid sid = [c] →
      observe cfg st e = some (is_interesting cfg.for_streams c.gid,
        { streams_by_gid :=
            updateA st.streams_by_gid c.gid (c.add_event m.event e)
          gid_by_alias := st.gid_by_alias ++ [(gid, c.gid)]
          logs := st.logs ++ [(LogLevel.info,
            "task " ++ gid ++ " attached to stream " ++ c.gid)] })) ∧
    ((candidatesOf st pid sid).length ≠ 1 →
      ∃ b lg, observe cfg st e =
        some (b, { st with logs := st.logs ++ [lg] })) := by
  constructor
  · intro c hcand
    have hcmem : c ∈ st.streams_by_gid.map Prod.snd := by
      have : c ∈ candidatesOf st pid sid := by
        rw [hcand]
        exact List.mem_cons_self c []
      exact (List.mem_filter.mp this).1
    have hlc : lookupA st.streams_by_gid c.gid = some c :=
      mem_values_lookup hinv hcmem
    unfold observe
    rw [if_neg (by simp [hmod]), hfm]
    simp only []
    unfold determine_gid
    rw [if_neg (by simp [hns]), hna, if_pos hal]
    unfold alias_git
    rw [hsp]
    simp only [Option.map_some']
    rw [hcand]
    simp only []
    rw [hlc]
  · intro hlen
    cases hcand : candidatesOf st pid sid with
    | nil =>
      refine ⟨is_interesting cfg.for_streams gid,
        (LogLevel.info, "stream " ++ gid ++ " unknown"), ?_⟩
      unfold observe
      rw [if_neg (by simp [hmod]), hfm]
      simp only []
      unfold determine_gid
      rw [if_neg (by simp [hns]), hna, if_pos hal]
      unfold alias_git
      rw [hsp]
      simp only [Option.map_some']
      rw [hcand]
      simp only []
      rw [hns]
      rw [if_neg (by simp [hcr])]
    | cons c cs =>
      cases cs with
      | nil =>
        exfalso
        apply hlen
        rw [hcand]
        rfl
      | cons c2 cs2 =>
        refine ⟨is_interesting cfg.for_streams gid,
          (LogLevel.warning, "stream " ++ gid ++ " has " ++
            toString (c :: c2 :: cs2).length ++
            " possible matches, ignored"), ?_⟩
        unfold observe
        rw [if_neg (by simp [hmod]), hfm]
        simp only []
        unfold determine_gid
        rw [if_neg (by simp [hns]), hna, if_pos hal]
        unfold alias_git
        rw [hsp]
        simp only [Option.map_some']
        rw [hcand]
        simp only []
        rw [hns]
        rw [if_neg (by simp [hcr])]

/-- C1 witness. -/
theorem aliasing_reconciliation_witness :
    observe wCfg stC entR = some (is_interesting wCfg.for_streams sC.gid,
      { streams_by_gid :=
          updateA stC.streams_by_gid sC.gid
            (sC.add_event ruleResponse.event entR)
        gid_by_alias := stC.gid_by_alias ++ [("1-9-7", sC.gid)]
        logs := stC.logs ++ [(LogLevel.info,
          "task " ++ "1-9-7" ++ " attached to stream " ++ sC.gid)] }) :=
  (aliasing_reconciliation wCfg stC entR ruleResponse "1-9-7" 1 9 7
    (by decide) rfl rfl rfl rfl rfl rfl rfl).1 sC (by decide)

/-- C7 counterexample. The two-component filter pattern "1-2" constrains
the (child, session) components, not (session, stream): identity 3-1-2
has session 1 and stream number 2, so the claim's reading admits it, but
the filter rejects it; conversely 1-2-5 passes although its
(session, stream) pair is (2, 5), not (1, 2). -/
theorem filter_pair_component_cex :
    splitGid? "3-1-2" = some (3, 1, 2) ∧
    is_interesting (gid_patterns_for (some ["1-2"])) "3-1-2" = false ∧
    splitGid? "1-2-5" = some (1, 2, 5) ∧
    is_interesting (gid_patterns_for (some ["1-2"])) "1-2-5" = true := by
  decide

theorem all_of_digits1 {a : List Char} (h : digits1 a = true) :
    ∀ ch ∈ a, ch.isDigit = true := by
  unfold digits1 at h
  simp only [Bool.and_eq_true, List.all_eq_true] at h
  exact h.2

theorem digits1_ne_nil {a : List Char} (h : digits1 a = true) : a ≠ [] := by
  unfold digits1 at h
  simp only [Bool.and_eq_true] at h
  intro he
  rw [he] at h
  simp at h

theorem dropWhile_append_of_all {p : Char → Bool} {a : List Char}
    (r : List Char) (h : ∀ ch ∈ a, p ch = true) :
    (a ++ r).dropWhile p = r.dropWhile p := by
  induction a with
  | nil => rfl
  | cons ch rest ih =>
    have hch := h ch (List.mem_cons_self ch rest)
    simp only [List.cons_append, List.dropWhile_cons, hch, if_true]
    exact ih (fun c hc => h c (List.mem_cons_of_mem ch hc))

theorem dropDigits_append_dash {a : List Char} (r : List Char)
    (h : digits1 a = true) : dropDigits (a ++ '-' :: r) = '-' :: r := by
  unfold dropDigits
  rw [dropWhile_append_of_all ('-' :: r) (all_of_digits1 h)]
  simp [List.dropWhile_cons]

theorem dropDigits_all {a : List Char} (h : digits1 a = true) :
    dropDigits a = [] := by
  unfold dropDigits
  have := dropWhile_append_of_all (p := Char.isDigit) [] (all_of_digits1 h)
  simpa using this

theorem startsDigits1_append {a : List Char} (r : List Char)
    (h : digits1 a = true) : startsDigits1 (a ++ r) = true := by
  cases a with
  | nil => exact absurd rfl (digits1_ne_nil h)
  | cons ch rest =>
    simp only [List.cons_append, startsDigits1]
    exact all_of_digits1 h ch (List.mem_cons_self ch rest)

theorem stripChars_eq_some_iff {p q r : List Char} :
    stripChars p q = some r ↔ q = p ++ r := by
  induction p generalizing q with
  | nil =>
    simp [stripChars, eq_comm]
  | cons pc ps ih =>
    cases q with
    | nil =>
      simp [stripChars]
    | cons qc qs =>
      simp only [stripChars, List.cons_append]
      by_cases hc : pc = qc
      · subst hc
        rw [if_pos rfl, ih]
        simp
      · rw [if_neg hc]
        constructor
        · intro h
          simp at h
        · intro h
          injection h with h1 h2
          exact absurd h1.symm hc

theorem dash_split_inj {a x u v : List Char}
    (ha : ∀ ch ∈ a, ch.isDigit = true) (hx : ∀ ch ∈ x, ch.isDigit = true)
    (h : a ++ '-' :: u = x ++ '-' :: v) : a = x ∧ u = v := by
  induction a generalizing x with
  | nil =>
    cases x with
    | nil =>
      simp only [List.nil_append] at h
      injection h with h1 h2
      exact ⟨rfl, h2⟩
    | cons xc xs =>
      simp only [List.nil_append, List.cons_append] at h
      injection h with h1 h2
      have := hx xc (List.mem_cons_self xc xs)
      rw [← h1] at this
      simp at this
  | cons ac as ih =>
    cases x with
    | nil =>
      simp only [List.cons_append, List.nil_append] at h
      injection h with h1 h2
      have := ha ac (List.mem_cons_self ac as)
      rw [h1] at this
      simp at this
    | cons xc xs =>
      simp only [List.cons_append] at h
      injection h with h1 h2
      obtain ⟨h3, h4⟩ := ih (fun c hc => ha c (List.mem_cons_of_mem ac hc))
        (fun c hc => hx c (List.mem_cons_of_mem xc hc)) h2
      subst h1
      rw [h3]
      exact ⟨rfl, h4⟩

theorem splitDash_append {a : List Char} (r : List Char)
    (h : ∀ ch ∈ a, ch.isDigit = true) :
    splitDash (a ++ '-' :: r) = a :: splitDash r := by
  induction a with
  | nil =>
    simp [splitDash]
  | cons ch rest ih =>
    have hch : ch ≠ '-' := by
      have := h ch (List.mem_cons_self ch rest)
      intro he
      rw [he] at this
      simp at this
    simp only [List.cons_append, splitDash, if_neg hch, List.append_eq]
    rw [ih (fun c hc => h c (List.mem_cons_of_mem ch hc))]

theorem splitDash_nodash {a : List Char}
    (h : ∀ ch ∈ a, ch.isDigit = true) : splitDash a = [a] := by
  induction a with
  | nil => rfl
  | cons ch rest ih =>
    have hch : ch ≠ '-' := by
      have := h ch (List.mem_cons_self ch rest)
      intro he
      rw [he] at this
      simp at this
    simp only [splitDash, if_neg hch]
    rw [ih (fun c hc => h c (List.mem_cons_of_mem ch hc))]

theorem startsDigits1_of_digits1 {b : List Char} (h : digits1 b = true) :
    startsDigits1 b = true := by
  cases b with
  | nil => exact absurd rfl (digits1_ne_nil h)
  | cons ch rest =>
    simp only [startsDigits1]
    exact all_of_digits1 h ch (List.mem_cons_self ch rest)

theorem tripleTest_triple {a b c : List Char} (ha : digits1 a = true)
    (hb : digits1 b = true) (hc : digits1 c = true) :
    tripleTest (String.mk (a ++ '-' :: (b ++ '-' :: c))) = true := by
  unfold tripleTest
  rw [show (String.mk (a ++ '-' :: (b ++ '-' :: c))).data =
    a ++ '-' :: (b ++ '-' :: c) from rfl]
  rw [splitDash_append _ (all_of_digits1 ha),
    splitDash_append _ (all_of_digits1 hb),
    splitDash_nodash (all_of_digits1 hc)]
  simp [ha, hb, hc]

theorem classify_triple {a b c : List Char} (ha : digits1 a = true)
    (hb : digits1 b = true) (hc : digits1 c = true) :
    classifyGidPattern (String.mk (a ++ '-' :: (b ++ '-' :: c))) =
      GidPattern.exactPat (String.mk (a ++ '-' :: (b ++ '-' :: c))) := by
  unfold classifyGidPattern
  rw [if_pos (tripleTest_triple ha hb hc)]

theorem classify_pair {a b : List Char} (ha : digits1 a = true)
    (hb : digits1 b = true) :
    classifyGidPattern (String.mk (a ++ '-' :: b)) =
      GidPattern.pairNumPat (String.mk (a ++ '-' :: b)) := by
  unfold classifyGidPattern
  have ht : tripleTest (String.mk (a ++ '-' :: b)) = false := by
    unfold tripleTest
    rw [show (String.mk (a ++ '-' :: b)).data = a ++ '-' :: b from rfl]
    rw [splitDash_append _ (all_of_digits1 ha),
      splitDash_nodash (all_of_digits1 hb)]
  have hp : pairStartTest (String.mk (a ++ '-' :: b)) = true := by
    unfold pairStartTest
    rw [show (String.mk (a ++ '-' :: b)).data = a ++ '-' :: b from rfl]
    rw [startsDigits1_append _ ha, dropDigits_append_dash _ ha]
    simp [startsDigits1_of_digits1 hb]
  rw [if_neg (by simp [ht]), if_pos hp]

theorem classify_child {a : List Char} (ha : digits1 a = true) :
    classifyGidPattern (String.mk (a ++ ['-'])) =
      GidPattern.startNumNumPat (String.mk (a ++ ['-'])) := by
  unfold classifyGidPattern
  have ht : tripleTest (String.mk (a ++ ['-'])) = false := by
    unfold tripleTest
    rw [show (String.mk (a ++ ['-'])).data = a ++ '-' :: [] from rfl]
    rw [splitDash_append _ (all_of_digits1 ha)]
    rfl
  have hp : pairStartTest (String.mk (a ++ ['-'])) = false := by
    unfold pairStartTest
    rw [show (String.mk (a ++ ['-'])).data = a ++ '-' :: [] from rfl]
    rw [startsDigits1_append _ ha, dropDigits_append_dash _ ha]
    simp [startsDigits1]
  have hn : numDashStartTest (String.mk (a ++ ['-'])) = true := by
    unfold numDashStartTest
    rw [show (String.mk (a ++ ['-'])).data = a ++ '-' :: [] from rfl]
    rw [startsDigits1_append _ ha, dropDigits_append_dash _ ha]
    rfl
  rw [if_neg (by simp [ht]), if_neg (by simp [hp]), if_pos hn]

theorem classify_bare {c : List Char} (hc : digits1 c = true) :
    classifyGidPattern (String.mk c) =
      GidPattern.numNumTailPat (String.mk c) := by
  unfold classifyGidPattern
  have hdr : dropDigits c = [] := dropDigits_all hc
  have ht : tripleTest (String.mk c) = false := by
    unfold tripleTest
    rw [show (String.mk c).data = c from rfl,
      splitDash_nodash (all_of_digits1 hc)]
  have hp : pairStartTest (String.mk c) = false := by
    unfold pairStartTest
    rw [show (String.mk c).data = c from rfl, hdr]
    simp
  have hn : numDashStartTest (String.mk c) = false := by
    unfold numDashStartTest
    rw [show (String.mk c).data = c from rfl, hdr]
    simp
  rw [if_neg (by simp [ht]), if_neg (by simp [hp]), if_neg (by simp [hn])]

theorem gpMatch_exact_iff {x y z a b c : List Char}
    (hx : digits1 x = true) (hy : digits1 y = true)
    (ha : digits1 a = true) (hb : digits1 b = true) :
    gpMatch (GidPattern.exactPat (String.mk (a ++ '-' :: (b ++ '-' :: c))))
      (String.mk (x ++ '-' :: (y ++ '-' :: z))) = true ↔
    (x = a ∧ y = b ∧ z = c) := by
  unfold gpMatch
  rw [beq_iff_eq]
  constructor
  · intro h
    have hd : x ++ '-' :: (y ++ '-' :: z) = a ++ '-' :: (b ++ '-' :: c) :=
      congrArg String.data h
    obtain ⟨h1, h2⟩ :=
      dash_split_inj (all_of_digits1 hx) (all_of_digits1 ha) hd
    obtain ⟨h3, h4⟩ :=
      dash_split_inj (all_of_digits1 hy) (all_of_digits1 hb) h2
    exact ⟨h1, h3, h4⟩
  · rintro ⟨rfl, rfl, rfl⟩
    rfl

theorem gpMatch_pair_iff {x y z a b : List Char}
    (hx : digits1 x = true) (hy : digits1 y = true) (hz : digits1 z = true)
    (ha : digits1 a = true) (hb : digits1 b = true) :
    gpMatch (GidPattern.pairNumPat (String.mk (a ++ '-' :: b)))
      (String.mk (x ++ '-' :: (y ++ '-' :: z))) = true ↔
    (x = a ∧ y = b) := by
  unfold gpMatch
  simp only []
  rw [show (a ++ '-' :: b) ++ ['-'] = a ++ '-' :: (b ++ ['-']) by simp]
  cases hst : stripChars (a ++ '-' :: (b ++ ['-']))
      (x ++ '-' :: (y ++ '-' :: z)) with
  | some r =>
    have hG : x ++ '-' :: (y ++ '-' :: z) = a ++ '-' :: (b ++ '-' :: r) := by
      have := stripChars_eq_some_iff.mp hst
      rw [this]
      simp
    obtain ⟨h1, h2⟩ :=
      dash_split_inj (all_of_digits1 hx) (all_of_digits1 ha) hG
    obtain ⟨h3, h4⟩ :=
      dash_split_inj (all_of_digits1 hy) (all_of_digits1 hb) h2
    subst h4
    constructor
    · intro _
      exact ⟨h1, h3⟩
    · intro _
      exact hz
  | none =>
    constructor
    · intro h
      simp at h
    · rintro ⟨rfl, rfl⟩
      exfalso
      have hok : stripChars (x ++ '-' :: (y ++ ['-']))
          (x ++ '-' :: (y ++ '-' :: z)) = some z :=
        stripChars_eq_some_iff.mpr (by simp)
      rw [hst] at hok
      simp at hok

theorem gpMatch_child_iff {x y z a : List Char}
    (hx : digits1 x = true) (hy : digits1 y = true) (hz : digits1 z = true)
    (ha : digits1 a = true) :
    gpMatch (GidPattern.startNumNumPat (String.mk (a ++ ['-'])))
      (String.mk (x ++ '-' :: (y ++ '-' :: z))) = true ↔
    x = a := by
  unfold gpMatch
  simp only []
  cases hst : stripChars (a ++ ['-']) (x ++ '-' :: (y ++ '-' :: z)) with
  | some r =>
    have hG : x ++ '-' :: (y ++ '-' :: z) = a ++ '-' :: r := by
      have := stripChars_eq_some_iff.mp hst
      rw [this]
      simp
    obtain ⟨h1, h2⟩ :=
      dash_split_inj (all_of_digits1 hx) (all_of_digits1 ha) hG
    subst h2
    have htest : numDashNumEndTest (y ++ '-' :: z) = true := by
      unfold numDashNumEndTest
      rw [startsDigits1_append _ hy, dropDigits_append_dash _ hy]
      simp [hz]
    simp [htest, h1]
  | none =>
    constructor
    · intro h
      simp at h
    · intro h
      subst h
      exfalso
      have hok : stripChars (x ++ ['-']) (x ++ '-' :: (y ++ '-' :: z)) =
          some (y ++ '-' :: z) := stripChars_eq_some_iff.mpr (by simp)
      rw [hst] at hok
      simp at hok

theorem gpMatch_tail_iff {x y z c : List Char}
    (hx : digits1 x = true) (hy : digits1 y = true) :
    gpMatch (GidPattern.numNumTailPat (String.mk c))
      (String.mk (x ++ '-' :: (y ++ '-' :: z))) = true ↔
    z = c := by
  unfold gpMatch
  simp only []
  have hrest : numNumDashRest (x ++ '-' :: (y ++ '-' :: z)) = some z := by
    unfold numNumDashRest
    rw [if_pos (startsDigits1_append _ hx), dropDigits_append_dash _ hx]
    simp only []
    rw [if_pos (startsDigits1_append _ hy), dropDigits_append_dash _ hy]
    rfl
  rw [hrest]
  simp only []
  rw [beq_iff_eq]

/-- C7 (amended). Identity filter semantics over flattened identities of
digit-triple shape child-session-stream: with no filter configured (None,
or an empty selection, both falsy) every identity passes; with patterns
configured, an identity passes exactly when at least one pattern accepts
it (logical OR); a full-triple pattern accepts exactly the identity with
those three components; a two-component pattern a-b constrains the child
and session components with the stream number unconstrained (not, as the
claim stated, the session and stream components with child
unconstrained); a pattern of the form a- constrains only the child
component; and a bare number constrains only the stream-number
component. -/
theorem filter_semantics (x y z : List Char)
    (hx : digits1 x = true) (hy : digits1 y = true) (hz : digits1 z = true) :
    is_interesting (gid_patterns_for none)
      (String.mk (x ++ '-' :: (y ++ '-' :: z))) = true ∧
    is_interesting (gid_patterns_for (some []))
      (String.mk (x ++ '-' :: (y ++ '-' :: z))) = true ∧
    (∀ ss : List String, ss ≠ [] →
      (is_interesting (gid_patterns_for (some ss))
          (String.mk (x ++ '-' :: (y ++ '-' :: z))) = true ↔
        ∃ s ∈ ss, gpMatch (classifyGidPattern s)
          (String.mk (x ++ '-' :: (y ++ '-' :: z))) = true)) ∧
    (∀ a b c : List Char, digits1 a = true → digits1 b = true →
      digits1 c = true →
      (gpMatch (classifyGidPattern (String.mk (a ++ '-' :: (b ++ '-' :: c))))
          (String.mk (x ++ '-' :: (y ++ '-' :: z))) = true ↔
        (x = a ∧ y = b ∧ z = c))) ∧
    (∀ a b : List Char, digits1 a = true → digits1 b = true →
      (gpMatch (classifyGidPattern (String.mk (a ++ '-' :: b)))
          (String.mk (x ++ '-' :: (y ++ '-' :: z))) = true ↔
        (x = a ∧ y = b))) ∧
    (∀ a : List Char, digits1 a = true →
      (gpMatch (classifyGidPattern (String.mk (a ++ ['-'])))
          (String.mk (x ++ '-' :: (y ++ '-' :: z))) = true ↔
        x = a)) ∧
    (∀ c : List Char, digits1 c = true →
      (gpMatch (classifyGidPattern (String.mk c))
          (String.mk (x ++ '-' :: (y ++ '-' :: z))) = true ↔
        z = c)) := by
  refine ⟨rfl, rfl, ?_, ?_, ?_, ?_, ?_⟩
  · intro ss hss
    unfold gid_patterns_for is_interesting
    simp only []
    rw [if_neg (by simpa using hss)]
    simp only []
    have hpe : (List.map classifyGidPattern ss).isEmpty = false := by
      cases ss with
      | nil => exact absurd rfl hss
      | cons s t => rfl
    rw [if_neg (by simp [hpe])]
    rw [List.any_eq_true]
    constructor
    · rintro ⟨p, hp, hmp⟩
      obtain ⟨s, hs, hse⟩ := List.mem_map.mp hp
      exact ⟨s, hs, hse ▸ hmp⟩
    · rintro ⟨s, hs, hms⟩
      exact ⟨classifyGidPattern s, List.mem_map.mpr ⟨s, hs, rfl⟩, hms⟩
  · intro a b c ha hb hc
    rw [classify_triple ha hb hc]
    exact gpMatch_exact_iff hx hy ha hb
  · intro a b ha hb
    rw [classify_pair ha hb]
    exact gpMatch_pair_iff hx hy hz ha hb
  · intro a ha
    rw [classify_child ha]
    exact gpMatch_child_iff hx hy hz ha
  · intro c hc
    rw [classify_bare hc]
    exact gpMatch_tail_iff hx hy

/-- C7 witness: the two-component pattern 3-1 accepts the identity
3-1-2 (child 3, session 1). -/
theorem filter_semantics_witness :
    gpMatch (classifyGidPattern (String.mk (['3'] ++ '-' :: ['1'])))
      (String.mk (['3'] ++ '-' :: (['1'] ++ '-' :: ['2']))) = true :=
  ((filter_semantics ['3'] ['1'] ['2'] (by decide) (by decide)
      (by decide)).2.2.2.2.1 ['3'] ['1'] (by decide) (by decide)).mpr
    ⟨rfl, rfl⟩
